import Mathlib

/-!
# A FAT-based file system simulator (`file_system.c`)

Shallow embedding of the allocation engine of `file_system.c`: the global
File Allocation Table, the fixed-capacity directory, the backing disk file and
the file / directory operations that mutate them.

Conventions of the embedding.

* The C globals `FAT`, `directory` and `diskFile` become the fields of one
  explicit `Volume` value that every operation receives and returns.
* `int` values are `Int`; array indices that the C code computes from an `int`
  are checked against the array bounds, and an access outside the array is the
  fault `Fault.fatIndexOutOfRange` (the C program has undefined behaviour there).
* A `char` buffer is the list of its bytes (`List Nat`); a `const char *`
  argument is the list of the bytes it points to, read up to the first `0`.
* `printf` of a status line becomes the `Msg` returned next to the new state.
-/

namespace FatFS

/-! ## Constants (`#define`s) -/

def DIRECTORY_SIZE : Nat := 128
def MAX_FILE_NAME_SIZE : Nat := 64
def MAX_FILE_SIZE : Int := 128
def BLOCK_SIZE : Nat := 1024
def TOTAL_DISK_SIZE : Nat := 64 * 1024 * 1024
def TOTAL_BLOCKS : Nat := TOTAL_DISK_SIZE / BLOCK_SIZE

/-! ## Data model -/

/-- The C struct `DirectoryEntry`; `fileName` is the content of the
`char fileName[MAX_FILE_NAME_SIZE]` buffer. -/
structure DirectoryEntry where
  fileName : List Nat
  startBlock : Int
  size : Int
  isDirectory : Int
deriving DecidableEq, Repr

/-- The backing file `virtualDisk.bin` behind `diskFile`: its length in whole
blocks and the bytes of each block. -/
structure Disk where
  nblocks : Nat
  block : Nat → List Nat

/-- The global state of the program. -/
structure Volume where
  FAT : Nat → Int
  directory : Nat → DirectoryEntry
  diskFile : Disk

/-- Undefined behaviour of the C program that the embedding makes explicit. -/
inductive Fault where
  /-- `FAT[idx]` with `idx` outside `[0, TOTAL_BLOCKS)`. -/
  | fatIndexOutOfRange (idx : Int)
  /-- `strcmp` ran past the end of a `fileName` buffer holding no `0`. -/
  | nameNotTerminated
  /-- `memcpy` in `writeFile` read past the end of the data. -/
  | dataOverread
  /-- A loop used up its fuel: `readFile` on a cyclic chain never returns. -/
  | nonTermination
deriving DecidableEq, Repr

/-- The status lines the operations print. -/
inductive Msg where
  /-- "Error: File size exceeds the maximum allowed size." -/
  | fileSizeExceeds
  /-- "File '%s' created successfully." -/
  | fileCreated
  /-- "Error: Directory is full." -/
  | directoryFull
  /-- "File '%s' deleted successfully." -/
  | fileDeleted
  /-- "Error: File not found." -/
  | fileNotFound
  /-- "Error: Data size exceeds file capacity." -/
  | dataSizeExceeds
  /-- "Data written to file '%s'." -/
  | dataWritten
  /-- "End of file." -/
  | endOfFile
  /-- "Error: New size exceeds current file size." -/
  | newSizeExceeds
  /-- "File '%s' truncated to %d blocks." -/
  | fileTruncated
  /-- "Directory '%s' created successfully." -/
  | directoryCreated
  /-- "Error: Directory '%s' is not empty." -/
  | directoryNotEmpty
  /-- "Directory '%s' deleted successfully." -/
  | directoryDeleted
  /-- "Error: Directory not found." -/
  | directoryNotFound
deriving DecidableEq, Repr

/-! ## C strings -/

/-- The string a `char *` denotes: the bytes before the first `0`. -/
def cstr (p : List Nat) : List Nat := p.takeWhile (fun c => c != 0)

/-- The buffer content after `strncpy(dst, src, n)`: at most `n` bytes of the
string, padded with `0` up to `n` bytes. -/
def strncpy (src : List Nat) (n : Nat) : List Nat :=
  (cstr src).take n ++ List.replicate (n - ((cstr src).take n).length) 0

/-- The content of a `DirectoryEntry` after `memset(&e, 0, sizeof e)`. -/
def zeroEntry : DirectoryEntry :=
  { fileName := List.replicate MAX_FILE_NAME_SIZE 0, startBlock := 0, size := 0, isDirectory := 0 }

/-- The test `directory[i].fileName[0] == 0` for an empty slot. -/
def emptySlot (e : DirectoryEntry) : Bool := e.fileName.head? == some 0

/-! ## `createFile` -/

/-- The loop `for (i = 0; i < DIRECTORY_SIZE; i++) if (directory[i].fileName[0] == 0)`:
the first empty slot at or after `i`, looking at `fuel` slots. -/
def firstEmptySlot (dir : Nat → DirectoryEntry) : Nat → Nat → Option Nat
  | _, 0 => none
  | i, fuel + 1 => if emptySlot (dir i) then some i else firstEmptySlot dir (i + 1) fuel

/-- The loop `for (k = 0; k < TOTAL_BLOCKS; k++) if (FAT[k] == -1)`:
the first free block at or after `k`, looking at `fuel` entries. -/
def firstFreeBlock (fat : Nat → Int) : Nat → Nat → Option Nat
  | _, 0 => none
  | k, fuel + 1 => if fat k = -1 then some k else firstFreeBlock fat (k + 1) fuel

/-- The variables the allocation loop of `createFile` updates. -/
structure Alloc where
  FAT : Nat → Int
  prevBlock : Int
  startBlock : Int

/-- One iteration of `for (j = 0; j < size; j++)` in `createFile`. -/
def allocStep (a : Alloc) : Alloc :=
  match firstFreeBlock a.FAT 0 TOTAL_BLOCKS with
  | none => a
  | some k =>
    let fat := Function.update a.FAT k (-2)
    if a.prevBlock ≠ -1 then
      { FAT := Function.update fat a.prevBlock.toNat (k : Int), prevBlock := k,
        startBlock := a.startBlock }
    else
      { FAT := fat, prevBlock := k, startBlock := k }

/-- The allocation loop of `createFile`, run `n` times. -/
def allocLoop : Nat → Alloc → Alloc
  | 0, a => a
  | n + 1, a => allocLoop n (allocStep a)

/-- The C function `createFile(name, size)`. -/
def createFile (name : List Nat) (size : Int) (s : Volume) : Msg × Volume :=
  if size > MAX_FILE_SIZE then (Msg.fileSizeExceeds, s)
  else
    match firstEmptySlot s.directory 0 DIRECTORY_SIZE with
    | none => (Msg.directoryFull, s)
    | some i =>
      let a := allocLoop size.toNat
        { FAT := s.FAT, prevBlock := -1, startBlock := (s.directory i).startBlock }
      (Msg.fileCreated,
        { s with
          FAT := a.FAT
          directory := Function.update s.directory i
            { fileName := strncpy name MAX_FILE_NAME_SIZE, startBlock := a.startBlock,
              size := size, isDirectory := 0 } })

/-! ## Name lookup -/

/-- The test `strcmp(buf, name) == 0` on a `fileName` buffer: bytes are compared
up to the first difference or the common terminator; running past the end of
the buffer is a fault. -/
def strcmpEq : List Nat → List Nat → Except Fault Bool
  | [], _ => Except.error Fault.nameNotTerminated
  | b :: bs, name =>
    if b ≠ name.headD 0 then Except.ok false
    else if b = 0 then Except.ok true
    else strcmpEq bs name.tail

/-- The loop header shared by `deleteFile`, `writeFile`, `readFile` and `truncateFile`:
`for (i = 0; i < DIRECTORY_SIZE; i++)
   if (strcmp(directory[i].fileName, name) == 0 && !directory[i].isDirectory)`. -/
def findFile (dir : Nat → DirectoryEntry) (name : List Nat) :
    Nat → Nat → Except Fault (Option Nat)
  | _, 0 => Except.ok none
  | i, fuel + 1 =>
    match strcmpEq (dir i).fileName name with
    | Except.error f => Except.error f
    | Except.ok eq =>
      if eq = true ∧ (dir i).isDirectory = 0 then Except.ok (some i)
      else findFile dir name (i + 1) fuel

/-- The loop header of `deleteDirectory`:
`if (strcmp(directory[i].fileName, name) == 0 && directory[i].isDirectory)`. -/
def findDirectory (dir : Nat → DirectoryEntry) (name : List Nat) :
    Nat → Nat → Except Fault (Option Nat)
  | _, 0 => Except.ok none
  | i, fuel + 1 =>
    match strcmpEq (dir i).fileName name with
    | Except.error f => Except.error f
    | Except.ok eq =>
      if eq = true ∧ (dir i).isDirectory ≠ 0 then Except.ok (some i)
      else findDirectory dir name (i + 1) fuel

/-! ## `deleteFile` -/

/-- The loop `while (block != -1) { nextBlock = FAT[block]; FAT[block] = -1; block = nextBlock; }`.
Every visited entry becomes `-1`, so the loop ends within `TOTAL_BLOCKS + 2`
tests of its condition; `fuel` counts these tests. -/
def releaseLoop : (Nat → Int) → Int → Nat → Except Fault (Nat → Int)
  | _, _, 0 => Except.error Fault.nonTermination
  | fat, block, fuel + 1 =>
    if block = -1 then Except.ok fat
    else if 0 ≤ block ∧ block < TOTAL_BLOCKS then
      releaseLoop (Function.update fat block.toNat (-1)) (fat block.toNat) fuel
    else Except.error (Fault.fatIndexOutOfRange block)

/-- The C function `deleteFile(name)`. -/
def deleteFile (name : List Nat) (s : Volume) : Except Fault (Msg × Volume) :=
  match findFile s.directory name 0 DIRECTORY_SIZE with
  | Except.error f => Except.error f
  | Except.ok none => Except.ok (Msg.fileNotFound, s)
  | Except.ok (some i) =>
    match releaseLoop s.FAT (s.directory i).startBlock (TOTAL_BLOCKS + 2) with
    | Except.error f => Except.error f
    | Except.ok fat =>
      Except.ok (Msg.fileDeleted,
        { s with FAT := fat, directory := Function.update s.directory i zeroEntry })

/-! ## The block store -/

/-- A block of zero bytes (`char buffer[BLOCK_SIZE] = {0}`). -/
def zeroBlock : List Nat := List.replicate BLOCK_SIZE 0

/-- The C function `writeBlock(blockNum, buffer)`, where `buffer` is the first
`BLOCK_SIZE` bytes at the pointer. An index out of range only prints an error.
Writing past the end of the file extends it, the gap reading as zeros. -/
def writeBlock (blockNum : Int) (buffer : List Nat) (d : Disk) : Disk :=
  if blockNum < 0 ∨ blockNum ≥ TOTAL_BLOCKS then d
  else
    { nblocks := max d.nblocks (blockNum.toNat + 1)
      block := fun i =>
        if i = blockNum.toNat then buffer
        else if d.nblocks ≤ i ∧ i < blockNum.toNat then zeroBlock
        else d.block i }

/-- The C function `readBlock(blockNum, buffer)`: the bytes stored into the
buffer, or `none` when the buffer is left as it was (index out of range, or
`fread` fails because the block lies past the end of the file). -/
def readBlock (blockNum : Int) (d : Disk) : Option (List Nat) :=
  if blockNum < 0 ∨ blockNum ≥ TOTAL_BLOCKS then none
  else if blockNum.toNat < d.nblocks then some (d.block blockNum.toNat)
  else none

/-! ## `writeFile` and `readFile` -/

/-- The value of an `int` expression after 32-bit two's complement wrap-around. -/
def wrapInt (x : Int) : Int := (x + 2147483648) % 4294967296 - 2147483648

/-- The loop of `writeFile`:
`while (block != -1 && offset < dataSize) { ... writeBlock(block, buffer); offset += chunkSize; block = FAT[block]; }`.
`memcpy` reading past the end of `data` is a fault. -/
def writeLoop (fat : Nat → Int) (data : List Nat) (dataSize : Int) :
    Disk → Int → Int → Nat → Except Fault Disk
  | _, _, _, 0 => Except.error Fault.nonTermination
  | d, block, offset, fuel + 1 =>
    if block ≠ -1 ∧ offset < dataSize then
      let chunkSize : Int :=
        if dataSize - offset > BLOCK_SIZE then (BLOCK_SIZE : Int) else dataSize - offset
      if offset < 0 ∨ (data.length : Int) < offset + chunkSize then
        Except.error Fault.dataOverread
      else
        let chunk := (data.drop offset.toNat).take chunkSize.toNat
        let buffer := chunk ++ List.replicate (BLOCK_SIZE - chunk.length) 0
        let d1 := writeBlock block buffer d
        if 0 ≤ block ∧ block < TOTAL_BLOCKS then
          writeLoop fat data dataSize d1 (fat block.toNat) (offset + chunkSize) fuel
        else Except.error (Fault.fatIndexOutOfRange block)
    else Except.ok d

/-- The C function `writeFile(name, data, dataSize)`. -/
def writeFile (name data : List Nat) (dataSize : Int) (s : Volume) :
    Except Fault (Msg × Volume) :=
  match findFile s.directory name 0 DIRECTORY_SIZE with
  | Except.error f => Except.error f
  | Except.ok none => Except.ok (Msg.fileNotFound, s)
  | Except.ok (some i) =>
    if dataSize > wrapInt ((s.directory i).size * BLOCK_SIZE) then
      Except.ok (Msg.dataSizeExceeds, s)
    else
      match writeLoop s.FAT data dataSize s.diskFile (s.directory i).startBlock 0
          (dataSize.toNat + 1) with
      | Except.error f => Except.error f
      | Except.ok d => Except.ok (Msg.dataWritten, { s with diskFile := d })

/-- The loop of `readFile`:
`while (block != -1) { char buffer[BLOCK_SIZE] = {0}; readBlock(block, buffer); printf(...); block = FAT[block]; }`.
The result lists the buffers handed to `printf`. The FAT is not modified, so a
walk of more than `TOTAL_BLOCKS` blocks is on a cycle and never ends. -/
def readLoop (fat : Nat → Int) (d : Disk) : Int → Nat → Except Fault (List (List Nat))
  | _, 0 => Except.error Fault.nonTermination
  | block, fuel + 1 =>
    if block = -1 then Except.ok []
    else
      let buffer := (readBlock block d).getD zeroBlock
      if 0 ≤ block ∧ block < TOTAL_BLOCKS then
        match readLoop fat d (fat block.toNat) fuel with
        | Except.error f => Except.error f
        | Except.ok out => Except.ok (buffer :: out)
      else Except.error (Fault.fatIndexOutOfRange block)

/-- The C function `readFile(name)`: the status line and the buffers printed. -/
def readFile (name : List Nat) (s : Volume) : Except Fault (Msg × List (List Nat)) :=
  match findFile s.directory name 0 DIRECTORY_SIZE with
  | Except.error f => Except.error f
  | Except.ok none => Except.ok (Msg.fileNotFound, [])
  | Except.ok (some i) =>
    match readLoop s.FAT s.diskFile (s.directory i).startBlock (TOTAL_BLOCKS + 1) with
    | Except.error f => Except.error f
    | Except.ok out => Except.ok (Msg.endOfFile, out)

/-! ## `truncateFile` -/

/-- The loop of `truncateFile`:
`while (block != -1) if (blockCount >= newSize) { nextBlock = FAT[block]; FAT[block] = -1; block = nextBlock; }
 else { prevBlock = block; block = FAT[block]; blockCount++; }`.
The result is the FAT and `prevBlock` at loop exit. -/
def truncateLoop (newSize : Int) :
    (Nat → Int) → Int → Int → Int → Nat → Except Fault ((Nat → Int) × Int)
  | _, _, _, _, 0 => Except.error Fault.nonTermination
  | fat, block, prevBlock, blockCount, fuel + 1 =>
    if block = -1 then Except.ok (fat, prevBlock)
    else if 0 ≤ block ∧ block < TOTAL_BLOCKS then
      if blockCount ≥ newSize then
        truncateLoop newSize (Function.update fat block.toNat (-1)) (fat block.toNat)
          prevBlock blockCount fuel
      else
        truncateLoop newSize fat (fat block.toNat) block (blockCount + 1) fuel
    else Except.error (Fault.fatIndexOutOfRange block)

/-- The C function `truncateFile(name, newSize)`. The keeping phase of the loop
takes at most `newSize` steps and the freeing phase at most `TOTAL_BLOCKS + 2`. -/
def truncateFile (name : List Nat) (newSize : Int) (s : Volume) :
    Except Fault (Msg × Volume) :=
  match findFile s.directory name 0 DIRECTORY_SIZE with
  | Except.error f => Except.error f
  | Except.ok none => Except.ok (Msg.fileNotFound, s)
  | Except.ok (some i) =>
    if newSize > (s.directory i).size then Except.ok (Msg.newSizeExceeds, s)
    else
      match truncateLoop newSize s.FAT (s.directory i).startBlock (-1) 0
          (newSize.toNat + TOTAL_BLOCKS + 2) with
      | Except.error f => Except.error f
      | Except.ok (fat, prevBlock) =>
        let fat1 := if prevBlock ≠ -1 then Function.update fat prevBlock.toNat (-1) else fat
        Except.ok (Msg.fileTruncated,
          { s with
            FAT := fat1
            directory := Function.update s.directory i
              { s.directory i with size := newSize } })

/-! ## Directory operations -/

/-- The C function `createDirectory(name)`. -/
def createDirectory (name : List Nat) (s : Volume) : Msg × Volume :=
  match firstEmptySlot s.directory 0 DIRECTORY_SIZE with
  | none => (Msg.directoryFull, s)
  | some i =>
    (Msg.directoryCreated,
      { s with
        directory := Function.update s.directory i
          { s.directory i with
            fileName := strncpy name MAX_FILE_NAME_SIZE, isDirectory := 1 } })

/-- The inner loop of `deleteDirectory`: is there a slot `j` with
`directory[j].fileName[0] != 0 && strcmp(directory[j].fileName, name) != 0 &&
 directory[j].isDirectory == 0`? -/
def otherFileExists (dir : Nat → DirectoryEntry) (name : List Nat) :
    Nat → Nat → Except Fault Bool
  | _, 0 => Except.ok false
  | j, fuel + 1 =>
    if emptySlot (dir j) then otherFileExists dir name (j + 1) fuel
    else
      match strcmpEq (dir j).fileName name with
      | Except.error f => Except.error f
      | Except.ok eq =>
        if eq = false ∧ (dir j).isDirectory = 0 then Except.ok true
        else otherFileExists dir name (j + 1) fuel

/-- The C function `deleteDirectory(name)`. -/
def deleteDirectory (name : List Nat) (s : Volume) : Except Fault (Msg × Volume) :=
  match findDirectory s.directory name 0 DIRECTORY_SIZE with
  | Except.error f => Except.error f
  | Except.ok none => Except.ok (Msg.directoryNotFound, s)
  | Except.ok (some i) =>
    match otherFileExists s.directory name 0 DIRECTORY_SIZE with
    | Except.error f => Except.error f
    | Except.ok true => Except.ok (Msg.directoryNotEmpty, s)
    | Except.ok false =>
      Except.ok (Msg.directoryDeleted,
        { s with directory := Function.update s.directory i zeroEntry })

/-- The C function `listDirectory()`: for every occupied slot, in slot order,
the name printed with `%s` and whether the line says "(Directory)". -/
def listDirectory (s : Volume) : List (List Nat × Bool) :=
  ((List.range DIRECTORY_SIZE).filter (fun i => !emptySlot (s.directory i))).map
    (fun i => (cstr (s.directory i).fileName, decide ((s.directory i).isDirectory ≠ 0)))

/-! ## Partition operations

`writeBlock(0, FAT)` and `writeBlock(1, directory)` transfer the first
`BLOCK_SIZE` bytes of the object they point to. The object representation is
that of the usual ABI: `int` is four bytes, little endian, two's complement, and
`DirectoryEntry` is `MAX_FILE_NAME_SIZE + 3 * 4` bytes without padding. -/

/-- The size of `int` in bytes, `sizeof(int)`. -/
def SIZEOF_INT : Nat := 4

/-- The size of a directory entry in bytes, `sizeof(DirectoryEntry)`. -/
def SIZEOF_ENTRY : Nat := MAX_FILE_NAME_SIZE + 3 * SIZEOF_INT

/-- Byte `j` of the object representation of an `int`. -/
def intByte (x : Int) (j : Nat) : Nat := ((x % 4294967296).toNat / 256 ^ j) % 256

/-- The `int` whose object representation is the four given bytes. -/
def intOfBytes (b0 b1 b2 b3 : Nat) : Int :=
  wrapInt ((b0 + 256 * b1 + 65536 * b2 + 16777216 * b3 : Nat) : Int)

/-- Byte `j` of the object representation of a directory entry. -/
def entryByte (e : DirectoryEntry) (j : Nat) : Nat :=
  if j < MAX_FILE_NAME_SIZE then e.fileName.getD j 0
  else if j < MAX_FILE_NAME_SIZE + SIZEOF_INT then intByte e.startBlock (j - MAX_FILE_NAME_SIZE)
  else if j < MAX_FILE_NAME_SIZE + 2 * SIZEOF_INT then
    intByte e.size (j - (MAX_FILE_NAME_SIZE + SIZEOF_INT))
  else intByte e.isDirectory (j - (MAX_FILE_NAME_SIZE + 2 * SIZEOF_INT))

/-- The first `BLOCK_SIZE` bytes of the array `FAT`. -/
def fatImage (fat : Nat → Int) : List Nat :=
  (List.range BLOCK_SIZE).map (fun p => intByte (fat (p / SIZEOF_INT)) (p % SIZEOF_INT))

/-- The first `BLOCK_SIZE` bytes of the array `directory`. -/
def directoryImage (dir : Nat → DirectoryEntry) : List Nat :=
  (List.range BLOCK_SIZE).map (fun p => entryByte (dir (p / SIZEOF_ENTRY)) (p % SIZEOF_ENTRY))

/-- The array `FAT` after `BLOCK_SIZE` bytes are read into its start. -/
def fatOfImage (image : List Nat) (fat : Nat → Int) : Nat → Int :=
  fun k =>
    if SIZEOF_INT * k < BLOCK_SIZE then
      intOfBytes (image.getD (SIZEOF_INT * k) 0) (image.getD (SIZEOF_INT * k + 1) 0)
        (image.getD (SIZEOF_INT * k + 2) 0) (image.getD (SIZEOF_INT * k + 3) 0)
    else fat k

/-- The array `directory` after `BLOCK_SIZE` bytes are read into its start: a
byte of entry `i` at offset `j` comes from the image when `SIZEOF_ENTRY * i + j`
is below `BLOCK_SIZE` and keeps its value otherwise. The boundary falls inside
the `fileName` of one entry, whose `int` fields are therefore kept. -/
def directoryOfImage (image : List Nat) (dir : Nat → DirectoryEntry) : Nat → DirectoryEntry :=
  fun i =>
    let at_ := fun j =>
      if SIZEOF_ENTRY * i + j < BLOCK_SIZE then image.getD (SIZEOF_ENTRY * i + j) 0
      else entryByte (dir i) j
    let intAt := fun j => intOfBytes (at_ j) (at_ (j + 1)) (at_ (j + 2)) (at_ (j + 3))
    if BLOCK_SIZE ≤ SIZEOF_ENTRY * i then dir i
    else if SIZEOF_ENTRY * i + MAX_FILE_NAME_SIZE < BLOCK_SIZE then
      { fileName := (List.range MAX_FILE_NAME_SIZE).map at_
        startBlock := intAt MAX_FILE_NAME_SIZE
        size := intAt (MAX_FILE_NAME_SIZE + SIZEOF_INT)
        isDirectory := intAt (MAX_FILE_NAME_SIZE + 2 * SIZEOF_INT) }
    else { dir i with fileName := (List.range MAX_FILE_NAME_SIZE).map at_ }

/-- The C function `createAndFormatPartition()`: `fopen(..., "wb+")` gives an
empty file, the tables are reset and written out. -/
def createAndFormatPartition : Volume :=
  let fat : Nat → Int := fun _ => -1
  let dir : Nat → DirectoryEntry := fun _ => zeroEntry
  let d0 : Disk := { nblocks := 0, block := fun _ => zeroBlock }
  { FAT := fat, directory := dir,
    diskFile := writeBlock 1 (directoryImage dir) (writeBlock 0 (fatImage fat) d0) }

/-- The C function `loadPartition()`. -/
def loadPartition (s : Volume) : Volume :=
  let fat := match readBlock 0 s.diskFile with
    | some image => fatOfImage image s.FAT
    | none => s.FAT
  let dir := match readBlock 1 s.diskFile with
    | some image => directoryOfImage image s.directory
    | none => s.directory
  { s with FAT := fat, directory := dir }

/-- The C function `savePartition()`. -/
def savePartition (s : Volume) : Volume :=
  { s with
    diskFile := writeBlock 1 (directoryImage s.directory) (writeBlock 0 (fatImage s.FAT) s.diskFile) }

/-! ## Runs of the console commands -/

/-- A command of `consoleInterface` that changes the volume. -/
inductive Op where
  | createFile (name : List Nat) (size : Int)
  | deleteFile (name : List Nat)
  | writeFile (name data : List Nat) (dataSize : Int)
  | truncateFile (name : List Nat) (newSize : Int)
  | createDirectory (name : List Nat)
  | deleteDirectory (name : List Nat)

/-- The state after one command. -/
def Op.apply (s : Volume) : Op → Except Fault Volume
  | Op.createFile name size => Except.ok (FatFS.createFile name size s).2
  | Op.deleteFile name => (FatFS.deleteFile name s).map Prod.snd
  | Op.writeFile name data dataSize => (FatFS.writeFile name data dataSize s).map Prod.snd
  | Op.truncateFile name newSize => (FatFS.truncateFile name newSize s).map Prod.snd
  | Op.createDirectory name => Except.ok (FatFS.createDirectory name s).2
  | Op.deleteDirectory name => (FatFS.deleteDirectory name s).map Prod.snd

/-- The state after a sequence of commands, each of which runs to completion. -/
def run : List Op → Volume → Except Fault Volume
  | [], s => Except.ok s
  | op :: ops, s =>
    match op.apply s with
    | Except.error f => Except.error f
    | Except.ok s1 => run ops s1

/-- A state the program reaches from a freshly formatted volume. -/
def Reachable (s : Volume) : Prop :=
  ∃ ops, run ops createAndFormatPartition = Except.ok s

/-! ## Notions the specification speaks about -/

/-- The free blocks of the volume, in ascending index order. -/
def freeBlocks (fat : Nat → Int) : List Nat :=
  (List.range TOTAL_BLOCKS).filter (fun k => fat k = -1)

/-- The chain followed through the FAT from block `b`: the blocks visited by
following the links for as long as the value is a block index. -/
def chain (fat : Nat → Int) : Int → Nat → List Nat
  | _, 0 => []
  | b, fuel + 1 =>
    if 0 ≤ b ∧ b < TOTAL_BLOCKS then b.toNat :: chain fat (fat b.toNat) fuel else []

/-- The blocks of the list are linked in this order and the last one holds the
end marker `-2`. -/
def Linked (fat : Nat → Int) : List Nat → Prop
  | [] => True
  | [k] => fat k = -2
  | k :: k2 :: rest => fat k = (k2 : Int) ∧ Linked fat (k2 :: rest)

/-- The previous block of the allocation loop, when there is one, is an
allocated block. -/
def PrevOk (a : Alloc) : Prop :=
  a.prevBlock = -1 ∨ (0 ≤ a.prevBlock ∧ a.FAT a.prevBlock.toNat ≠ -1)

/-- Every `fileName` buffer of the directory holds a terminated string. -/
def NamesTerminated (s : Volume) : Prop :=
  ∀ i, i < DIRECTORY_SIZE → 0 ∈ (s.directory i).fileName

/-- A state in which every directory slot is empty and block 5 is the only free
block (every other FAT entry holds the link `0`). -/
def oneFreeBlockVolume : Volume :=
  { FAT := fun k => if k = 5 then -1 else 0, directory := fun _ => zeroEntry,
    diskFile := { nblocks := TOTAL_BLOCKS, block := fun _ => zeroBlock } }

/-- Slot `j` holds a directory named `name`. -/
def IsDirectoryNamed (dir : Nat → DirectoryEntry) (name : List Nat) (j : Nat) : Prop :=
  cstr (dir j).fileName = cstr name ∧ (dir j).isDirectory ≠ 0

/-- Slot `j` is an occupied File slot whose name differs from `name`. -/
def IsOtherFile (dir : Nat → DirectoryEntry) (name : List Nat) (j : Nat) : Prop :=
  emptySlot (dir j) = false ∧ cstr (dir j).fileName ≠ cstr name ∧ (dir j).isDirectory = 0

/-- Slot `j` passes the lookup test for the File named `name`:
`strcmp(directory[j].fileName, name) == 0 && !directory[j].isDirectory`. -/
def IsFileNamed (dir : Nat → DirectoryEntry) (name : List Nat) (j : Nat) : Prop :=
  cstr (dir j).fileName = cstr name ∧ (dir j).isDirectory = 0

/-- Slot `i` is the slot a lookup of the File `name` stops at: the first one
that passes the test. -/
def FirstFileNamed (dir : Nat → DirectoryEntry) (name : List Nat) (i : Nat) : Prop :=
  i < DIRECTORY_SIZE ∧ IsFileNamed dir name i ∧ ∀ j, j < i → ¬ IsFileNamed dir name j

/-- A state whose directory has no empty slot: every slot holds a file named
"x". -/
def fullDirectoryVolume : Volume :=
  { createAndFormatPartition with
    directory := fun _ =>
      { fileName := strncpy [120] MAX_FILE_NAME_SIZE, startBlock := 0, size := 0,
        isDirectory := 0 } }

/-- The content of disk block `j` as `readBlock` delivers it into a zeroed
buffer (a block past the end of the file reads as zeros). -/
def blockContent (d : Disk) (j : Nat) : List Nat := (readBlock j d).getD zeroBlock

/-- The bytes `data[off ..]` that fit in one block, zero-padded to `BLOCK_SIZE`. -/
def paddedChunk (data : List Nat) (off : Nat) : List Nat :=
  (data.drop off).take BLOCK_SIZE ++
    List.replicate (BLOCK_SIZE - ((data.drop off).take BLOCK_SIZE).length) 0

/-- Every FAT entry is FREE (`-1`), the end marker (`-2`), or the index of a
later block. -/
def ForwardLinks (fat : Nat → Int) : Prop :=
  ∀ i, i < TOTAL_BLOCKS →
    fat i = -1 ∨ fat i = -2 ∨ ((i : Int) < fat i ∧ fat i < (TOTAL_BLOCKS : Int))

/-- The previous block of the allocation loop, when there is one, is an
allocated block below every free block. -/
def PrevLow (a : Alloc) : Prop :=
  a.prevBlock = -1 ∨
    (0 ≤ a.prevBlock ∧ a.FAT a.prevBlock.toNat ≠ -1 ∧
      ∀ k ∈ freeBlocks a.FAT, a.prevBlock < (k : Int))

/-! ## Lemmas on the scans -/

theorem firstFreeBlock_eq_head (fat : Nat → Int) (k fuel : Nat) :
    firstFreeBlock fat k fuel = ((List.range' k fuel).filter (fun x => fat x = -1)).head? := by
  induction fuel generalizing k with
  | zero => simp [firstFreeBlock]
  | succ m ih =>
    rw [firstFreeBlock, List.range'_succ]
    by_cases h : fat k = -1
    · simp [h]
    · simp [h, ih]

theorem firstFreeBlock_freeBlocks (fat : Nat → Int) :
    firstFreeBlock fat 0 TOTAL_BLOCKS = (freeBlocks fat).head? := by
  rw [firstFreeBlock_eq_head, freeBlocks, List.range_eq_range']

theorem freeBlocks_nodup (fat : Nat → Int) : (freeBlocks fat).Nodup :=
  (List.nodup_range _).filter _

theorem freeBlocks_pairwise (fat : Nat → Int) : (freeBlocks fat).Pairwise (· < ·) :=
  (List.pairwise_lt_range _).filter _

theorem mem_freeBlocks {fat : Nat → Int} {k : Nat} :
    k ∈ freeBlocks fat ↔ k < TOTAL_BLOCKS ∧ fat k = -1 := by
  simp [freeBlocks]

theorem freeBlocks_length_le (fat : Nat → Int) : (freeBlocks fat).length ≤ TOTAL_BLOCKS := by
  have := List.length_filter_le (fun k => decide (fat k = -1)) (List.range TOTAL_BLOCKS)
  simpa [freeBlocks] using this

/-- Removing one block from the free set. -/
theorem freeBlocks_of_cons {fat g : Nat → Int} {k : Nat} {rest : List Nat}
    (hfs : freeBlocks fat = k :: rest)
    (hg : ∀ x, g x = -1 ↔ (fat x = -1 ∧ x ≠ k)) :
    freeBlocks g = rest := by
  have hnd := freeBlocks_nodup fat
  rw [hfs] at hnd
  have hk : k ∉ rest := (List.nodup_cons.mp hnd).1
  have h1 : freeBlocks g = (freeBlocks fat).filter (fun x => x ≠ k) := by
    unfold freeBlocks
    rw [List.filter_filter]
    apply List.filter_congr
    intro x _
    simp [hg x, and_comm]
  rw [h1, hfs]
  rw [List.filter_cons_of_neg (by simp)]
  rw [List.filter_eq_self]
  intro a ha
  have : a ≠ k := fun h => hk (h ▸ ha)
  simpa using this

theorem allocStep_nil {a : Alloc} (h : freeBlocks a.FAT = []) : allocStep a = a := by
  unfold allocStep
  rw [firstFreeBlock_freeBlocks, h]
  rfl

theorem allocStep_cons {a : Alloc} {k : Nat} {rest : List Nat}
    (h : freeBlocks a.FAT = k :: rest) (hp : PrevOk a) :
    (allocStep a).prevBlock = k ∧
    (allocStep a).startBlock = (if a.prevBlock = -1 then (k : Int) else a.startBlock) ∧
    freeBlocks (allocStep a).FAT = rest ∧
    (allocStep a).FAT k = -2 ∧
    (a.prevBlock ≠ -1 → (allocStep a).FAT a.prevBlock.toNat = k) ∧
    (∀ x, x ≠ k → (x : Int) ≠ a.prevBlock → (allocStep a).FAT x = a.FAT x) := by
  have hkmem : k ∈ freeBlocks a.FAT := by rw [h]; simp
  have hkfree := (mem_freeBlocks.mp hkmem).2
  unfold allocStep
  rw [firstFreeBlock_freeBlocks, h]
  simp only [List.head?_cons]
  by_cases hprev : a.prevBlock = -1
  · simp only [hprev, ne_eq, not_true_eq_false, if_false, if_true, true_and]
    refine ⟨?_, ?_, ?_, ?_⟩
    · apply freeBlocks_of_cons h
      intro x
      by_cases hx : x = k
      · subst hx; simp
      · simp [Function.update_noteq hx, hx]
    · simp
    · intro hh; exact hh.elim
    · intro x hx _
      simp [Function.update_noteq hx]
  · have hp2 : 0 ≤ a.prevBlock ∧ a.FAT a.prevBlock.toNat ≠ -1 := by
      rcases hp with hp | hp
      · exact absurd hp hprev
      · exact hp
    have hne : a.prevBlock.toNat ≠ k := fun e => hp2.2 (e ▸ hkfree)
    simp only [hprev, ne_eq, not_false_eq_true, if_true, if_false, true_and]
    refine ⟨?_, ?_, ?_, ?_⟩
    · apply freeBlocks_of_cons h
      intro x
      by_cases hx : x = k
      · subst hx
        simp [Function.update_noteq (Ne.symm hne)]
      · by_cases hx2 : x = a.prevBlock.toNat
        · subst hx2
          simp only [Function.update_same, ne_eq, hx, not_false_eq_true, and_true]
          constructor
          · intro e; omega
          · intro e
            exact absurd e hp2.2
        · simp [Function.update_noteq hx2, Function.update_noteq hx, hx]
    · simp [Function.update_noteq (Ne.symm hne)]
    · intro _; simp
    · intro x hx hx2
      have : x ≠ a.prevBlock.toNat := by
        intro e; apply hx2; rw [e]; exact Int.toNat_of_nonneg hp2.1
      simp [Function.update_noteq this, Function.update_noteq hx]

theorem allocStep_prevOk {a : Alloc} (hp : PrevOk a) : PrevOk (allocStep a) := by
  cases h : freeBlocks a.FAT with
  | nil => rw [allocStep_nil h]; exact hp
  | cons k rest =>
    obtain ⟨h1, _, _, h4, _, _⟩ := allocStep_cons h hp
    right
    rw [h1]
    simp [h4]

theorem allocLoop_spec (n : Nat) (a : Alloc) (hp : PrevOk a) :
    freeBlocks (allocLoop n a).FAT = (freeBlocks a.FAT).drop n ∧
    ((freeBlocks a.FAT).take n = [] → allocLoop n a = a) ∧
    (a.prevBlock = -1 → ∀ k, ((freeBlocks a.FAT).take n).head? = some k →
      (allocLoop n a).startBlock = k) ∧
    (a.prevBlock ≠ -1 → (allocLoop n a).startBlock = a.startBlock) ∧
    (a.prevBlock ≠ -1 → ∀ k, ((freeBlocks a.FAT).take n).head? = some k →
      (allocLoop n a).FAT a.prevBlock.toNat = k) ∧
    Linked (allocLoop n a).FAT ((freeBlocks a.FAT).take n) ∧
    (∀ x, x ∉ (freeBlocks a.FAT).take n → (x : Int) ≠ a.prevBlock →
      (allocLoop n a).FAT x = a.FAT x) := by
  induction n generalizing a with
  | zero => simp [allocLoop, Linked]
  | succ n ih =>
    cases h : freeBlocks a.FAT with
    | nil =>
      have hs := allocStep_nil h
      have ih1 := ih a hp
      rw [h] at ih1
      have hr : allocLoop n a = a := ih1.2.1 (by simp)
      simp only [allocLoop, hs, hr]
      simp [Linked, h]
    | cons k rest =>
      obtain ⟨s1, s2, s3, s4, s5, s6⟩ := allocStep_cons h hp
      have hp1 := allocStep_prevOk hp
      obtain ⟨i1, i2, -, i4, i5, i6, i7⟩ := ih (allocStep a) hp1
      rw [s3] at i1 i2 i5 i6 i7
      have hk1 : (allocStep a).prevBlock ≠ -1 := by rw [s1]; omega
      have hkt : (allocStep a).prevBlock.toNat = k := by rw [s1]; simp
      have hfree : ∀ x, x ∈ k :: rest → a.FAT x = -1 := by
        intro x hx
        rw [← h] at hx
        exact (mem_freeBlocks.mp hx).2
      simp only [allocLoop, List.take_succ_cons, List.drop_succ_cons, List.head?_cons,
        Option.some.injEq]
      refine ⟨i1, by simp, ?_, ?_, ?_, ?_, ?_⟩
      · intro hprev k0 hk0
        rw [i4 hk1, s2, if_pos hprev, hk0]
      · intro hprev
        rw [i4 hk1, s2, if_neg hprev]
      · intro hprev k0 hk0
        have hp2 : 0 ≤ a.prevBlock ∧ a.FAT a.prevBlock.toNat ≠ -1 := by
          rcases hp with hp | hp
          · exact absurd hp hprev
          · exact hp
        have hnotin : a.prevBlock.toNat ∉ k :: rest := fun hm => hp2.2 (hfree _ hm)
        rw [i7 _ (fun hm => hnotin (List.mem_cons_of_mem _ (List.mem_of_mem_take hm)))
          (by rw [s1]; intro e; apply hnotin; simp; left; omega), s5 hprev, hk0]
      · cases hks : List.take n rest with
        | nil =>
          rw [i2 hks]
          simpa [Linked] using s4
        | cons k2 rest2 =>
          rw [hks] at i5 i6
          have := i5 hk1 k2 (by simp)
          rw [hkt] at this
          exact ⟨this, i6⟩
      · intro x hx hxp
        have hx1 : x ≠ k := fun e => hx (by simp [e])
        have hx2 : x ∉ List.take n rest := fun hm => hx (List.mem_cons_of_mem _ hm)
        rw [i7 x hx2 (by rw [s1]; omega), s6 x hx1 hxp]

theorem chain_of_linked (fat : Nat → Int) :
    ∀ (ks : List Nat) (k fuel : Nat), Linked fat (k :: ks) →
      (∀ x ∈ k :: ks, x < TOTAL_BLOCKS) → ks.length < fuel →
      chain fat (k : Int) fuel = k :: ks := by
  intro ks
  induction ks with
  | nil =>
    intro k fuel hl hr hf
    obtain ⟨f, rfl⟩ : ∃ f, fuel = f + 1 := ⟨fuel - 1, by simp at hf; omega⟩
    have hk : k < TOTAL_BLOCKS := hr k (by simp)
    have hl1 : fat k = -2 := hl
    have hstop : chain fat (-2) f = [] := by
      cases f with
      | zero => rfl
      | succ f => simp [chain]
    simp [chain, hk, hl1, hstop]
  | cons k2 rest ih =>
    intro k fuel hl hr hf
    obtain ⟨f, rfl⟩ : ∃ f, fuel = f + 1 := ⟨fuel - 1, by simp at hf; omega⟩
    have hk : k < TOTAL_BLOCKS := hr k (by simp)
    obtain ⟨hl1, hl2⟩ : fat k = (k2 : Int) ∧ Linked fat (k2 :: rest) := hl
    have := ih k2 f hl2 (fun x hx => hr x (List.mem_cons_of_mem _ hx))
      (by simp at hf; omega)
    simp [chain, hk, hl1, this]

theorem firstEmptySlot_some {dir : Nat → DirectoryEntry} {i fuel r : Nat}
    (h : firstEmptySlot dir i fuel = some r) :
    i ≤ r ∧ r < i + fuel ∧ emptySlot (dir r) = true ∧
      ∀ j, i ≤ j → j < r → emptySlot (dir j) = false := by
  induction fuel generalizing i with
  | zero => simp [firstEmptySlot] at h
  | succ m ih =>
    rw [firstEmptySlot] at h
    by_cases he : emptySlot (dir i) = true
    · rw [if_pos he] at h
      obtain rfl : i = r := by simpa using h
      exact ⟨le_refl _, by omega, he, fun j h1 h2 => by omega⟩
    · rw [if_neg he] at h
      obtain ⟨h1, h2, h3, h4⟩ := ih h
      refine ⟨by omega, by omega, h3, ?_⟩
      intro j hj1 hj2
      by_cases hji : j = i
      · subst hji; simpa using he
      · exact h4 j (by omega) hj2

theorem firstEmptySlot_none {dir : Nat → DirectoryEntry} {i fuel : Nat}
    (h : firstEmptySlot dir i fuel = none) :
    ∀ j, i ≤ j → j < i + fuel → emptySlot (dir j) = false := by
  induction fuel generalizing i with
  | zero => intro j h1 h2; omega
  | succ m ih =>
    rw [firstEmptySlot] at h
    by_cases he : emptySlot (dir i) = true
    · rw [if_pos he] at h; simp at h
    · rw [if_neg he] at h
      intro j hj1 hj2
      by_cases hji : j = i
      · subst hji; simpa using he
      · exact ih h j (by omega) (by omega)

theorem firstEmptySlot_of_exists {dir : Nat → DirectoryEntry}
    (h : ∃ i, i < DIRECTORY_SIZE ∧ emptySlot (dir i) = true) :
    ∃ r, firstEmptySlot dir 0 DIRECTORY_SIZE = some r := by
  cases hr : firstEmptySlot dir 0 DIRECTORY_SIZE with
  | some r => exact ⟨r, rfl⟩
  | none =>
    obtain ⟨i, hi, he⟩ := h
    have := firstEmptySlot_none hr i (Nat.zero_le _) (by omega)
    rw [he] at this
    cases this

theorem cstr_nonzero (p : List Nat) : ∀ c ∈ cstr p, c ≠ 0 := by
  intro c hc
  have := List.mem_takeWhile_imp hc
  simpa using this

theorem cstr_strncpy (src : List Nat) (n : Nat) (h : (cstr src).length < n) :
    cstr (strncpy src n) = cstr src ∧ 0 ∈ strncpy src n ∧ (strncpy src n).length = n := by
  have ht : (cstr src).take n = cstr src := List.take_of_length_le (le_of_lt h)
  unfold strncpy
  rw [ht]
  obtain ⟨m, hm⟩ : ∃ m, n - (cstr src).length = m + 1 := ⟨n - (cstr src).length - 1, by omega⟩
  rw [hm]
  refine ⟨?_, ?_, ?_⟩
  · show List.takeWhile _ _ = _
    rw [List.takeWhile_append_of_pos]
    · simp [List.replicate_succ]
    · intro a ha
      simpa using cstr_nonzero src a ha
  · simp [List.replicate_succ]
  · simp; omega
/-- C1: when a directory slot is free and at least `n` blocks are free, with
`1 ≤ n ≤ MAX_FILE_SIZE` and a non-empty name shorter than 64 characters,
`createFile(name, n)` reports success and writes a File entry of size `n` with
that name into the first free slot; the chain followed through the FAT from the
entry's `startBlock` is the list of the `n` lowest-indexed previously free
blocks in ascending order, the last of them holds the end marker `-2`, and every
other FAT entry and every other directory slot is unchanged. -/
theorem createFile_allocates_lowest_free_blocks (s : Volume) (name : List Nat) (n : Nat)
    (hslot : ∃ i, i < DIRECTORY_SIZE ∧ emptySlot (s.directory i) = true)
    (hfree : n ≤ (freeBlocks s.FAT).length)
    (hn1 : 1 ≤ n) (hn2 : (n : Int) ≤ MAX_FILE_SIZE)
    (hname : cstr name ≠ []) (hlen : (cstr name).length < MAX_FILE_NAME_SIZE) :
    ∃ i, i < DIRECTORY_SIZE ∧ emptySlot (s.directory i) = true ∧
      (∀ j, j < i → emptySlot (s.directory j) = false) ∧
      (createFile name n s).1 = Msg.fileCreated ∧
      emptySlot ((createFile name n s).2.directory i) = false ∧
      cstr ((createFile name n s).2.directory i).fileName = cstr name ∧
      ((createFile name n s).2.directory i).size = n ∧
      ((createFile name n s).2.directory i).isDirectory = 0 ∧
      chain (createFile name n s).2.FAT ((createFile name n s).2.directory i).startBlock
        (TOTAL_BLOCKS + 1) = (freeBlocks s.FAT).take n ∧
      ((freeBlocks s.FAT).take n).length = n ∧
      ((freeBlocks s.FAT).take n).Pairwise (· < ·) ∧
      (∀ last, ((freeBlocks s.FAT).take n).getLast? = some last →
        (createFile name n s).2.FAT last = -2) ∧
      (∀ k, k ∉ (freeBlocks s.FAT).take n → (createFile name n s).2.FAT k = s.FAT k) ∧
      (∀ j, j ≠ i → (createFile name n s).2.directory j = s.directory j) := by
  obtain ⟨i, hi⟩ := firstEmptySlot_of_exists hslot
  obtain ⟨-, hi2, hi3, hi4⟩ := firstEmptySlot_some hi
  have hsz : ¬ ((n : Int) > MAX_FILE_SIZE) := not_lt.mpr hn2
  obtain ⟨hcs, -, -⟩ := cstr_strncpy name MAX_FILE_NAME_SIZE hlen
  let a0 : Alloc := { FAT := s.FAT, prevBlock := -1, startBlock := (s.directory i).startBlock }
  have hp0 : PrevOk a0 := Or.inl rfl
  obtain ⟨-, -, a3, -, -, a6, a7⟩ := allocLoop_spec n a0 hp0
  have hcf : createFile name n s = (Msg.fileCreated,
      { s with
        FAT := (allocLoop n a0).FAT
        directory := Function.update s.directory i
          { fileName := strncpy name MAX_FILE_NAME_SIZE, startBlock := (allocLoop n a0).startBlock,
            size := n, isDirectory := 0 } }) := by
    unfold createFile
    rw [if_neg hsz, hi]
    simp [a0]
  have hlenks : ((freeBlocks s.FAT).take n).length = n := by
    rw [List.length_take]; exact min_eq_left hfree
  have hmemks : ∀ x ∈ (freeBlocks s.FAT).take n, x < TOTAL_BLOCKS := fun x hx =>
    (mem_freeBlocks.mp (List.mem_of_mem_take hx)).1
  have hle : n ≤ TOTAL_BLOCKS := le_trans hfree (freeBlocks_length_le _)
  refine ⟨i, by simpa using hi2, hi3, fun j hj => hi4 j (Nat.zero_le _) hj, ?_⟩
  rw [hcf]
  simp only [Function.update_same]
  refine ⟨trivial, ?_, hcs, trivial, trivial, ?_, hlenks, (freeBlocks_pairwise _).take, ?_, ?_, ?_⟩
  · -- the slot is occupied
    have hne : cstr (strncpy name MAX_FILE_NAME_SIZE) ≠ [] := by rw [hcs]; exact hname
    unfold emptySlot
    cases hfn : strncpy name MAX_FILE_NAME_SIZE with
    | nil => rw [hfn] at hne; simp [cstr] at hne
    | cons c cs =>
      rw [hfn] at hne
      by_cases hc : c = 0
      · subst hc; simp [cstr] at hne
      · simp [hc]
  · -- the chain
    cases hks : (freeBlocks s.FAT).take n with
    | nil => rw [hks] at hlenks; simp at hlenks; omega
    | cons k ks =>
      rw [hks] at a3 a6 hmemks hlenks
      rw [a3 rfl k (by simp)]
      exact chain_of_linked _ ks k _ a6 hmemks (by simp at hlenks; omega)
  · -- the end marker
    intro last hlast
    have hl := a6
    revert hl hlast
    generalize (freeBlocks s.FAT).take n = ks
    generalize (allocLoop n a0).FAT = fat
    intro hlast hl
    induction ks with
    | nil => simp at hlast
    | cons k ks ih =>
      cases ks with
      | nil =>
        simp at hlast
        subst hlast
        exact hl
      | cons k2 ks2 =>
        rw [List.getLast?_cons_cons] at hlast
        exact ih hlast hl.2
  · intro k hk
    exact a7 k hk (by simp [a0])
  · intro j hj
    exact Function.update_noteq hj _ _
theorem freeBlocks_format : freeBlocks createAndFormatPartition.FAT = List.range TOTAL_BLOCKS := by
  simp [freeBlocks, createAndFormatPartition]

/-- Witness for C1: on a freshly formatted volume, `createFile("a", 2)`. -/
theorem createFile_allocates_lowest_free_blocks_witness :
    ∃ i, i < DIRECTORY_SIZE ∧ emptySlot (createAndFormatPartition.directory i) = true ∧
      (∀ j, j < i → emptySlot (createAndFormatPartition.directory j) = false) ∧
      (createFile [97] ((2 : Nat) : Int) createAndFormatPartition).1 = Msg.fileCreated ∧
      emptySlot ((createFile [97] ((2 : Nat) : Int) createAndFormatPartition).2.directory i)
        = false ∧
      cstr ((createFile [97] ((2 : Nat) : Int) createAndFormatPartition).2.directory i).fileName
        = cstr [97] ∧
      ((createFile [97] ((2 : Nat) : Int) createAndFormatPartition).2.directory i).size
        = ((2 : Nat) : Int) ∧
      ((createFile [97] ((2 : Nat) : Int) createAndFormatPartition).2.directory i).isDirectory
        = 0 ∧
      chain (createFile [97] ((2 : Nat) : Int) createAndFormatPartition).2.FAT
        ((createFile [97] ((2 : Nat) : Int) createAndFormatPartition).2.directory i).startBlock
        (TOTAL_BLOCKS + 1) = (freeBlocks createAndFormatPartition.FAT).take 2 ∧
      ((freeBlocks createAndFormatPartition.FAT).take 2).length = 2 ∧
      ((freeBlocks createAndFormatPartition.FAT).take 2).Pairwise (· < ·) ∧
      (∀ last, ((freeBlocks createAndFormatPartition.FAT).take 2).getLast? = some last →
        (createFile [97] ((2 : Nat) : Int) createAndFormatPartition).2.FAT last = -2) ∧
      (∀ k, k ∉ (freeBlocks createAndFormatPartition.FAT).take 2 →
        (createFile [97] ((2 : Nat) : Int) createAndFormatPartition).2.FAT k
          = createAndFormatPartition.FAT k) ∧
      (∀ j, j ≠ i → (createFile [97] ((2 : Nat) : Int) createAndFormatPartition).2.directory j
        = createAndFormatPartition.directory j) :=
  createFile_allocates_lowest_free_blocks createAndFormatPartition [97] 2
    ⟨0, by decide, by decide⟩
    (by rw [freeBlocks_format, List.length_range]; decide)
    (by decide) (by decide) (by decide) (by decide)

theorem createFile_eq {s : Volume} {name : List Nat} {size : Int} {i : Nat}
    (hsz : size ≤ MAX_FILE_SIZE) (hi : firstEmptySlot s.directory 0 DIRECTORY_SIZE = some i) :
    createFile name size s = (Msg.fileCreated,
      { s with
        FAT := (allocLoop size.toNat
          { FAT := s.FAT, prevBlock := -1, startBlock := (s.directory i).startBlock }).FAT
        directory := Function.update s.directory i
          { fileName := strncpy name MAX_FILE_NAME_SIZE
            startBlock := (allocLoop size.toNat
              { FAT := s.FAT, prevBlock := -1, startBlock := (s.directory i).startBlock }).startBlock
            size := size, isDirectory := 0 } }) := by
  unfold createFile
  rw [if_neg (not_lt.mpr hsz), hi]

theorem linked_getLast (fat : Nat → Int) (ks : List Nat) (last : Nat)
    (hl : Linked fat ks) (hlast : ks.getLast? = some last) : fat last = -2 := by
  induction ks with
  | nil => simp at hlast
  | cons k ks ih =>
    cases ks with
    | nil =>
      simp at hlast
      subst hlast
      exact hl
    | cons k2 ks2 =>
      rw [List.getLast?_cons_cons] at hlast
      exact ih hl.2 hlast

theorem createFile_last_link (s : Volume) (name : List Nat) (size : Int) (i last : Nat)
    (hsz : size ≤ MAX_FILE_SIZE) (hi : firstEmptySlot s.directory 0 DIRECTORY_SIZE = some i)
    (hlast : ((freeBlocks s.FAT).take size.toNat).getLast? = some last) :
    (createFile name size s).2.FAT last = -2 := by
  have hp0 : PrevOk (Alloc.mk s.FAT (-1) (s.directory i).startBlock) := Or.inl rfl
  obtain ⟨-, -, -, -, -, a6, -⟩ := allocLoop_spec size.toNat _ hp0
  rw [createFile_eq hsz hi]
  exact linked_getLast _ _ last a6 hlast

theorem freeBlocks_single {fat : Nat → Int} {b : Nat} (hb : b < TOTAL_BLOCKS)
    (h : ∀ k, fat k = -1 ↔ k = b) : freeBlocks fat = [b] := by
  have hmem : ∀ k, k ∈ freeBlocks fat ↔ k = b := by
    intro k
    rw [mem_freeBlocks]
    constructor
    · intro hk; exact (h k).1 hk.2
    · intro hk; subst hk; exact ⟨hb, (h k).2 rfl⟩
  have hnd := freeBlocks_nodup fat
  cases hfs : freeBlocks fat with
  | nil =>
    have := (hmem b).2 rfl
    rw [hfs] at this
    cases this
  | cons a rest =>
    rw [hfs] at hnd
    have ha : a = b := (hmem a).1 (by rw [hfs]; simp)
    cases rest with
    | nil => rw [ha]
    | cons c r =>
      have hc : c = b := (hmem c).1 (by rw [hfs]; simp)
      have hne : a ≠ c := by
        intro e
        have := (List.nodup_cons.mp hnd).1
        apply this
        rw [e]; simp
      exact absurd (ha.trans hc.symm) hne

theorem freeBlocks_oneFree : freeBlocks oneFreeBlockVolume.FAT = [5] := by
  apply freeBlocks_single (by decide)
  intro k
  show (if k = 5 then (-1 : Int) else 0) = -1 ↔ k = 5
  by_cases hk : k = 5
  · simp [hk]
  · simp [hk]

/-- C2, counterexample: on a volume with a free slot and a single free block
(block 5), `createFile("a", 2)` does not fail. It prints the success line,
takes block 5 (`FAT[5]` goes from `-1` to `-2`) and occupies slot 0, so neither
the FAT nor the Directory Table is left as it was. -/
theorem createFile_insufficient_space_counterexample :
    emptySlot (oneFreeBlockVolume.directory 0) = true ∧
    (freeBlocks oneFreeBlockVolume.FAT).length < 2 ∧
    (createFile [97] 2 oneFreeBlockVolume).1 = Msg.fileCreated ∧
    oneFreeBlockVolume.FAT 5 = -1 ∧
    (createFile [97] 2 oneFreeBlockVolume).2.FAT 5 = -2 ∧
    emptySlot ((createFile [97] 2 oneFreeBlockVolume).2.directory 0) = false ∧
    ((createFile [97] 2 oneFreeBlockVolume).2.directory 0).size = 2 := by
  have hi : firstEmptySlot oneFreeBlockVolume.directory 0 DIRECTORY_SIZE = some 0 := by decide
  have hlast := createFile_last_link oneFreeBlockVolume [97] 2 0 5 (by decide) hi
    (by rw [freeBlocks_oneFree]; rfl)
  have hlen : (freeBlocks oneFreeBlockVolume.FAT).length < 2 := by
    rw [freeBlocks_oneFree]; decide
  have hmsg : (createFile [97] 2 oneFreeBlockVolume).1 = Msg.fileCreated := by
    rw [createFile_eq (by decide) hi]
  have hslot : emptySlot ((createFile [97] 2 oneFreeBlockVolume).2.directory 0) = false := by
    rw [createFile_eq (by decide) hi]
    rfl
  have hsize : ((createFile [97] 2 oneFreeBlockVolume).2.directory 0).size = 2 := by
    rw [createFile_eq (by decide) hi]
    rfl
  exact ⟨rfl, hlen, hmsg, rfl, hlast, hslot, hsize⟩

/-- C2, amended: when a directory slot is free but fewer than `n` blocks are
free (so `0 < n`; `n ≤ MAX_FILE_SIZE`), `createFile(name, n)` does not report a
lack of space: it prints the success line, writes a File entry of size `n` into
the first free slot and allocates every free block there is. Afterwards no block
is free; when at least one block was free the chain followed from the entry's
`startBlock` is the list of all previously free blocks, in ascending order and
ended by `-2`; every FAT entry that was not free and every other directory slot
is unchanged. -/
theorem createFile_takes_all_free_blocks (s : Volume) (name : List Nat) (n : Nat)
    (hslot : ∃ i, i < DIRECTORY_SIZE ∧ emptySlot (s.directory i) = true)
    (hfew : (freeBlocks s.FAT).length < n) (hn2 : (n : Int) ≤ MAX_FILE_SIZE) :
    ∃ i, i < DIRECTORY_SIZE ∧ emptySlot (s.directory i) = true ∧
      (∀ j, j < i → emptySlot (s.directory j) = false) ∧
      (createFile name n s).1 = Msg.fileCreated ∧
      ((createFile name n s).2.directory i).fileName = strncpy name MAX_FILE_NAME_SIZE ∧
      ((createFile name n s).2.directory i).size = n ∧
      ((createFile name n s).2.directory i).isDirectory = 0 ∧
      freeBlocks (createFile name n s).2.FAT = [] ∧
      (freeBlocks s.FAT ≠ [] →
        chain (createFile name n s).2.FAT ((createFile name n s).2.directory i).startBlock
          (TOTAL_BLOCKS + 1) = freeBlocks s.FAT) ∧
      (∀ last, (freeBlocks s.FAT).getLast? = some last →
        (createFile name n s).2.FAT last = -2) ∧
      (∀ k, k ∉ freeBlocks s.FAT → (createFile name n s).2.FAT k = s.FAT k) ∧
      (∀ j, j ≠ i → (createFile name n s).2.directory j = s.directory j) := by
  obtain ⟨i, hi⟩ := firstEmptySlot_of_exists hslot
  obtain ⟨-, hi2, hi3, hi4⟩ := firstEmptySlot_some hi
  have hp0 : PrevOk (Alloc.mk s.FAT (-1) (s.directory i).startBlock) := Or.inl rfl
  obtain ⟨a1, -, a3, -, -, a6, a7⟩ := allocLoop_spec n _ hp0
  have htake : (freeBlocks s.FAT).take n = freeBlocks s.FAT :=
    List.take_of_length_le (le_of_lt hfew)
  have hdrop : (freeBlocks s.FAT).drop n = [] := List.drop_of_length_le (le_of_lt hfew)
  have hll : ∀ last, (freeBlocks s.FAT).getLast? = some last →
      (createFile name n s).2.FAT last = -2 := fun last h =>
    createFile_last_link s name n i last hn2 hi (by rw [Int.toNat_ofNat, htake]; exact h)
  simp only [htake, hdrop] at a1 a3 a6 a7
  refine ⟨i, by simpa using hi2, hi3, fun j hj => hi4 j (Nat.zero_le _) hj, ?_⟩
  rw [createFile_eq hn2 hi] at hll ⊢
  simp only [Function.update_same, Int.toNat_ofNat] at hll ⊢
  refine ⟨trivial, trivial, trivial, trivial, a1, ?_, hll, ?_, ?_⟩
  · intro hne
    cases hks : freeBlocks s.FAT with
    | nil => exact absurd hks hne
    | cons k ks =>
      rw [hks] at a3 a6
      rw [a3 trivial k (by simp)]
      refine chain_of_linked _ ks k _ a6 ?_ ?_
      · intro x hx
        rw [← hks] at hx
        exact (mem_freeBlocks.mp hx).1
      · have := freeBlocks_length_le s.FAT
        rw [hks] at this
        simp at this
        omega
  · intro k hk
    exact a7 k hk (by simp)
  · intro j hj
    exact Function.update_noteq hj _ _

/-- Witness for C2 (amended): `createFile("a", 2)` on a volume whose only free
block is block 5. -/
theorem createFile_takes_all_free_blocks_witness :
    freeBlocks oneFreeBlockVolume.FAT = [5] ∧
    ∃ i, i < DIRECTORY_SIZE ∧ emptySlot (oneFreeBlockVolume.directory i) = true ∧
      (∀ j, j < i → emptySlot (oneFreeBlockVolume.directory j) = false) ∧
      (createFile [97] ((2 : Nat) : Int) oneFreeBlockVolume).1 = Msg.fileCreated ∧
      ((createFile [97] ((2 : Nat) : Int) oneFreeBlockVolume).2.directory i).fileName
        = strncpy [97] MAX_FILE_NAME_SIZE ∧
      ((createFile [97] ((2 : Nat) : Int) oneFreeBlockVolume).2.directory i).size
        = ((2 : Nat) : Int) ∧
      ((createFile [97] ((2 : Nat) : Int) oneFreeBlockVolume).2.directory i).isDirectory = 0 ∧
      freeBlocks (createFile [97] ((2 : Nat) : Int) oneFreeBlockVolume).2.FAT = [] ∧
      (freeBlocks oneFreeBlockVolume.FAT ≠ [] →
        chain (createFile [97] ((2 : Nat) : Int) oneFreeBlockVolume).2.FAT
          ((createFile [97] ((2 : Nat) : Int) oneFreeBlockVolume).2.directory i).startBlock
          (TOTAL_BLOCKS + 1) = freeBlocks oneFreeBlockVolume.FAT) ∧
      (∀ last, (freeBlocks oneFreeBlockVolume.FAT).getLast? = some last →
        (createFile [97] ((2 : Nat) : Int) oneFreeBlockVolume).2.FAT last = -2) ∧
      (∀ k, k ∉ freeBlocks oneFreeBlockVolume.FAT →
        (createFile [97] ((2 : Nat) : Int) oneFreeBlockVolume).2.FAT k
          = oneFreeBlockVolume.FAT k) ∧
      (∀ j, j ≠ i → (createFile [97] ((2 : Nat) : Int) oneFreeBlockVolume).2.directory j
        = oneFreeBlockVolume.directory j) :=
  ⟨freeBlocks_oneFree,
    createFile_takes_all_free_blocks oneFreeBlockVolume [97] 2 ⟨0, by decide, by decide⟩
      (by simp [freeBlocks_oneFree]) (by decide)⟩

/-- C3, evaluation at the failing input: after `createFile("a", 0)` and
`createFile("b", 1)` on a freshly formatted volume, slots 0 and 1 are two
occupied File slots with the same `startBlock`, and block 0 is on both chains. -/
theorem zero_size_file_shares_chain :
    ∃ s, Reachable s ∧
      emptySlot (s.directory 0) = false ∧ (s.directory 0).isDirectory = 0 ∧
      emptySlot (s.directory 1) = false ∧ (s.directory 1).isDirectory = 0 ∧
      chain s.FAT (s.directory 0).startBlock (TOTAL_BLOCKS + 1) = [0] ∧
      chain s.FAT (s.directory 1).startBlock (TOTAL_BLOCKS + 1) = [0] :=
  ⟨_, ⟨[Op.createFile [97] 0, Op.createFile [98] 1], rfl⟩,
    by decide, by decide, by decide, by decide, by decide, by decide⟩

/-- C4, evaluation at the failing input: `createFile("a", 1)` on a freshly
formatted volume allocates block 0, the block that holds the saved FAT. -/
theorem createFile_allocates_block_zero :
    ∃ s, Reachable s ∧
      emptySlot (s.directory 0) = false ∧ (s.directory 0).isDirectory = 0 ∧
      (s.directory 0).size = 1 ∧ (s.directory 0).startBlock = 0 ∧ s.FAT 0 = -2 :=
  ⟨_, ⟨[Op.createFile [97] 1], rfl⟩, by decide, by decide, by decide, by decide, by decide⟩

/-- C5, evaluation at the failing input: after `createFile("f", 5)` on a freshly
formatted volume, `truncateFile("f", 2)` walks past the end marker and indexes
`FAT[-2]`. -/
theorem truncateFile_after_createFile_faults :
    truncateFile [102] 2 (createFile [102] 5 createAndFormatPartition).2
      = Except.error (Fault.fatIndexOutOfRange (-2)) := by
  rfl

/-- C6, evaluation at the failing input: after `createFile("a", 1)` on a freshly
formatted volume, `deleteFile("a")` walks past the end marker and indexes
`FAT[-2]`. -/
theorem deleteFile_after_createFile_faults :
    deleteFile [97] (createFile [97] 1 createAndFormatPartition).2
      = Except.error (Fault.fatIndexOutOfRange (-2)) := by
  rfl

/-- C7, evaluation at the failing input: the empty name matches an empty slot.
On a freshly formatted volume `deleteFile("")` prints the success line, and
after `createFile("a", 1)` it frees the block of file `a` through the stale
`startBlock` of the empty slot 1 before indexing `FAT[-2]`. -/
theorem deleteFile_empty_name_matches_empty_slot :
    (deleteFile [] createAndFormatPartition).map Prod.fst = Except.ok Msg.fileDeleted ∧
    findFile (createFile [97] 1 createAndFormatPartition).2.directory [] 0 DIRECTORY_SIZE
      = Except.ok (some 1) ∧
    deleteFile [] (createFile [97] 1 createAndFormatPartition).2
      = Except.error (Fault.fatIndexOutOfRange (-2)) :=
  ⟨rfl, rfl, rfl⟩
set_option maxRecDepth 200000 in
/-- C8, evaluation at the failing input: format, `createFile("a", 3)`,
`writeFile("a", "hi", 2)`, `savePartition`, `loadPartition`. File `a` owns
blocks 0, 1 and 2; `savePartition` overwrites block 0, which held the data,
with the FAT, and `readFile("a")` walks past the end marker and indexes
`FAT[-2]`. -/
theorem read_after_save_load_faults :
    ∃ s, writeFile [97] [104, 105] 2 (createFile [97] 3 createAndFormatPartition).2
        = Except.ok (Msg.dataWritten, s) ∧
      (s.diskFile.block 0).take 4 = [104, 105, 0, 0] ∧
      ((loadPartition (savePartition s)).diskFile.block 0).take 4 = [1, 0, 0, 0] ∧
      readFile [97] (loadPartition (savePartition s))
        = Except.error (Fault.fatIndexOutOfRange (-2)) :=
  ⟨_, rfl, by decide, by decide, by rfl⟩

/-- C9, evaluation at the failing input: the FAT of a freshly formatted volume
is saved and then loaded by a fresh process, whose tables are all zero. Entry
300 lies beyond the `BLOCK_SIZE` bytes that `writeBlock(0, FAT)` transfers and
is not reproduced. -/
theorem save_load_loses_fat_entry :
    createAndFormatPartition.FAT 300 = -1 ∧
    (loadPartition
      { FAT := fun _ => 0, directory := fun _ => zeroEntry,
        diskFile := (savePartition createAndFormatPartition).diskFile }).FAT 300 = 0 :=
  ⟨by decide, by decide⟩
theorem cstr_nil : cstr [] = [] := rfl

theorem cstr_cons_zero (bs : List Nat) : cstr (0 :: bs) = [] := by
  simp [cstr]

theorem cstr_cons_ne {b : Nat} (bs : List Nat) (h : b ≠ 0) : cstr (b :: bs) = b :: cstr bs := by
  simp [cstr, h]

/-- On a terminated buffer `strcmp` never leaves the buffer and decides whether
the two strings are equal. -/
theorem strcmpEq_terminated (buf : List Nat) (h0 : 0 ∈ buf) (name : List Nat) :
    strcmpEq buf name = Except.ok (decide (cstr buf = cstr name)) := by
  induction buf generalizing name with
  | nil => simp at h0
  | cons b bs ih =>
    rw [strcmpEq]
    cases name with
    | nil =>
      simp only [List.headD_nil, cstr_nil]
      by_cases hb : b = 0
      · subst hb; simp [cstr_cons_zero]
      · simp [hb, cstr_cons_ne]
    | cons c cs =>
      simp only [List.headD_cons, List.tail_cons]
      by_cases hbc : b = c
      · subst hbc
        by_cases hb : b = 0
        · subst hb; simp [cstr_cons_zero]
        · have h0bs : 0 ∈ bs := by
            rcases List.mem_cons.mp h0 with h | h
            · exact absurd h.symm hb
            · exact h
          simp [hb, cstr_cons_ne, ih h0bs]
      · by_cases hb : b = 0
        · subst hb
          have hc : c ≠ 0 := fun e => hbc e.symm
          simp [hbc, cstr_cons_zero, cstr_cons_ne, hc]
        · by_cases hc : c = 0
          · subst hc; simp [hb, cstr_cons_zero, cstr_cons_ne]
          · simp [hbc, cstr_cons_ne, hb, hc]

theorem findDirectory_first {dir : Nat → DirectoryEntry} {name : List Nat} {i fuel : Nat}
    (ht : ∀ j, i ≤ j → j < i + fuel → 0 ∈ (dir j).fileName)
    (hex : ∃ j, i ≤ j ∧ j < i + fuel ∧ IsDirectoryNamed dir name j) :
    ∃ r, findDirectory dir name i fuel = Except.ok (some r) ∧ i ≤ r ∧ r < i + fuel ∧
      IsDirectoryNamed dir name r ∧ ∀ j, i ≤ j → j < r → ¬ IsDirectoryNamed dir name j := by
  induction fuel generalizing i with
  | zero => obtain ⟨j, h1, h2, -⟩ := hex; omega
  | succ m ih =>
    rw [findDirectory, strcmpEq_terminated _ (ht i (le_refl _) (by omega))]
    by_cases hP : IsDirectoryNamed dir name i
    · refine ⟨i, ?_, le_refl _, by omega, hP, fun j h1 h2 => by omega⟩
      simp [hP.1, hP.2]
    · have hex2 : ∃ j, i + 1 ≤ j ∧ j < i + 1 + m ∧ IsDirectoryNamed dir name j := by
        obtain ⟨j, h1, h2, h3⟩ := hex
        refine ⟨j, ?_, by omega, h3⟩
        by_contra hlt
        have : j = i := by omega
        exact hP (this ▸ h3)
      obtain ⟨r, r1, r2, r3, r4, r5⟩ := ih (fun j h1 h2 => ht j (by omega) (by omega)) hex2
      refine ⟨r, ?_, by omega, by omega, r4, ?_⟩
      · have : ¬ (decide (cstr (dir i).fileName = cstr name) = true ∧ (dir i).isDirectory ≠ 0) := by
          simpa [IsDirectoryNamed] using hP
        simp only [this, if_false]
        exact r1
      · intro j h1 h2
        by_cases hji : j = i
        · subst hji; exact hP
        · exact r5 j (by omega) h2

theorem otherFileExists_true {dir : Nat → DirectoryEntry} {name : List Nat} {i fuel : Nat}
    (ht : ∀ j, i ≤ j → j < i + fuel → 0 ∈ (dir j).fileName)
    (hex : ∃ j, i ≤ j ∧ j < i + fuel ∧ IsOtherFile dir name j) :
    otherFileExists dir name i fuel = Except.ok true := by
  induction fuel generalizing i with
  | zero => obtain ⟨j, h1, h2, -⟩ := hex; omega
  | succ m ih =>
    rw [otherFileExists, strcmpEq_terminated _ (ht i (le_refl _) (by omega))]
    by_cases hQ : IsOtherFile dir name i
    · obtain ⟨q1, q2, q3⟩ := hQ
      simp [q1, q2, q3]
    · have hex2 : ∃ j, i + 1 ≤ j ∧ j < i + 1 + m ∧ IsOtherFile dir name j := by
        obtain ⟨j, h1, h2, h3⟩ := hex
        refine ⟨j, ?_, by omega, h3⟩
        by_contra hlt
        have : j = i := by omega
        exact hQ (this ▸ h3)
      have hrec := ih (fun j h1 h2 => ht j (by omega) (by omega)) hex2
      by_cases he : emptySlot (dir i) = true
      · simp [he, hrec]
      · have : ¬ (decide (cstr (dir i).fileName = cstr name) = false ∧ (dir i).isDirectory = 0) := by
          intro hc
          apply hQ
          exact ⟨by simpa using he, by simpa using hc.1, hc.2⟩
        simp only [he, this, if_false]
        exact hrec

theorem otherFileExists_false {dir : Nat → DirectoryEntry} {name : List Nat} {i fuel : Nat}
    (ht : ∀ j, i ≤ j → j < i + fuel → 0 ∈ (dir j).fileName)
    (hno : ∀ j, i ≤ j → j < i + fuel → ¬ IsOtherFile dir name j) :
    otherFileExists dir name i fuel = Except.ok false := by
  induction fuel generalizing i with
  | zero => rfl
  | succ m ih =>
    rw [otherFileExists, strcmpEq_terminated _ (ht i (le_refl _) (by omega))]
    have hQ := hno i (le_refl _) (by omega)
    have hrec := @ih (i + 1) (fun j h1 h2 => ht j (by omega) (by omega))
      (fun j h1 h2 => hno j (by omega) (by omega))
    by_cases he : emptySlot (dir i) = true
    · simp [he, hrec]
    · have : ¬ (decide (cstr (dir i).fileName = cstr name) = false ∧ (dir i).isDirectory = 0) := by
        intro hc
        apply hQ
        exact ⟨by simpa using he, by simpa using hc.1, hc.2⟩
      simp only [he, this, if_false]
      exact hrec
theorem namesTerminated_format : NamesTerminated createAndFormatPartition := by
  intro i _
  simp [createAndFormatPartition, zeroEntry, MAX_FILE_NAME_SIZE]

theorem namesTerminated_createDirectory {s : Volume} (name : List Nat)
    (hs : NamesTerminated s) (hlen : (cstr name).length < MAX_FILE_NAME_SIZE) :
    NamesTerminated (createDirectory name s).2 := by
  intro j hj
  unfold createDirectory
  cases firstEmptySlot s.directory 0 DIRECTORY_SIZE with
  | none => exact hs j hj
  | some i =>
    by_cases hji : j = i
    · subst hji
      simp only [Function.update_same]
      exact (cstr_strncpy name _ hlen).2.1
    · simp only [Function.update_noteq hji]
      exact hs j hj

theorem namesTerminated_createFile {s : Volume} (name : List Nat) (size : Int)
    (hs : NamesTerminated s) (hlen : (cstr name).length < MAX_FILE_NAME_SIZE) :
    NamesTerminated (createFile name size s).2 := by
  intro j hj
  unfold createFile
  split
  · exact hs j hj
  · cases firstEmptySlot s.directory 0 DIRECTORY_SIZE with
    | none => exact hs j hj
    | some i =>
      by_cases hji : j = i
      · subst hji
        simp only [Function.update_same]
        exact (cstr_strncpy name _ hlen).2.1
      · simp only [Function.update_noteq hji]
        exact hs j hj

/-- C10, counterexample: after `createDirectory("d")` and `createFile("d", 1)`
slot 1 is an occupied File slot, yet `deleteDirectory("d")` deletes the
directory instead of reporting that it is not empty. -/
theorem deleteDirectory_same_name_counterexample :
    ∃ s, Reachable s ∧ IsDirectoryNamed s.directory [100] 0 ∧
      emptySlot (s.directory 1) = false ∧ (s.directory 1).isDirectory = 0 ∧
      (deleteDirectory [100] s).map Prod.fst = Except.ok Msg.directoryDeleted :=
  ⟨_, ⟨[Op.createDirectory [100], Op.createFile [100] 1], rfl⟩,
    ⟨by decide, by decide⟩, by decide, by decide, rfl⟩

/-- C10, amended: for every state (with terminated names) that has a Directory
entry named `d`, `deleteDirectory(d)` reports that the directory is not empty,
leaving the whole state unchanged, if and only if some occupied slot is a File
entry whose name differs from `d`; when there is no such entry it zeroes the
first slot holding a directory named `d`, leaving every other slot, the FAT and
the disk unchanged. -/
theorem deleteDirectory_not_empty_iff_other_file (s : Volume) (d : List Nat)
    (hs : NamesTerminated s)
    (hd : ∃ i, i < DIRECTORY_SIZE ∧ IsDirectoryNamed s.directory d i) :
    ∃ i, i < DIRECTORY_SIZE ∧ IsDirectoryNamed s.directory d i ∧
      (∀ j, j < i → ¬ IsDirectoryNamed s.directory d j) ∧
      ((deleteDirectory d s).map Prod.fst = Except.ok Msg.directoryNotEmpty ↔
        ∃ j, j < DIRECTORY_SIZE ∧ IsOtherFile s.directory d j) ∧
      ((∃ j, j < DIRECTORY_SIZE ∧ IsOtherFile s.directory d j) →
        deleteDirectory d s = Except.ok (Msg.directoryNotEmpty, s)) ∧
      ((¬ ∃ j, j < DIRECTORY_SIZE ∧ IsOtherFile s.directory d j) →
        deleteDirectory d s = Except.ok (Msg.directoryDeleted,
          { s with directory := Function.update s.directory i zeroEntry })) := by
  have ht : ∀ j, 0 ≤ j → j < 0 + DIRECTORY_SIZE → 0 ∈ (s.directory j).fileName :=
    fun j _ h => hs j (by omega)
  obtain ⟨i0, hi0, hP0⟩ := hd
  obtain ⟨i, hfind, -, hi, hP, hfirst⟩ :=
    findDirectory_first ht ⟨i0, Nat.zero_le _, by omega, hP0⟩
  have hyes : (∃ j, j < DIRECTORY_SIZE ∧ IsOtherFile s.directory d j) →
      deleteDirectory d s = Except.ok (Msg.directoryNotEmpty, s) := by
    rintro ⟨j, hj, hQ⟩
    unfold deleteDirectory
    rw [hfind]
    simp only
    rw [otherFileExists_true ht ⟨j, Nat.zero_le _, by omega, hQ⟩]
  have hno : (¬ ∃ j, j < DIRECTORY_SIZE ∧ IsOtherFile s.directory d j) →
      deleteDirectory d s = Except.ok (Msg.directoryDeleted,
        { s with directory := Function.update s.directory i zeroEntry }) := by
    intro hnone
    unfold deleteDirectory
    rw [hfind]
    simp only
    rw [otherFileExists_false ht (fun j _ h2 hQ => hnone ⟨j, by omega, hQ⟩)]
  refine ⟨i, by omega, hP, fun j hj => hfirst j (Nat.zero_le _) hj, ?_, hyes, hno⟩
  constructor
  · intro hmsg
    by_contra hnone
    rw [hno hnone] at hmsg
    simp [Except.map] at hmsg
  · intro hex
    rw [hyes hex]
    rfl

/-- Witness for C10 (amended): `deleteDirectory("d")` after `createDirectory("d")`
on a freshly formatted volume. -/
theorem deleteDirectory_not_empty_iff_other_file_witness :
    ∃ i, i < DIRECTORY_SIZE ∧
      IsDirectoryNamed (createDirectory [100] createAndFormatPartition).2.directory [100] i ∧
      (∀ j, j < i →
        ¬ IsDirectoryNamed (createDirectory [100] createAndFormatPartition).2.directory [100] j) ∧
      ((deleteDirectory [100] (createDirectory [100] createAndFormatPartition).2).map Prod.fst
          = Except.ok Msg.directoryNotEmpty ↔
        ∃ j, j < DIRECTORY_SIZE ∧
          IsOtherFile (createDirectory [100] createAndFormatPartition).2.directory [100] j) ∧
      ((∃ j, j < DIRECTORY_SIZE ∧
          IsOtherFile (createDirectory [100] createAndFormatPartition).2.directory [100] j) →
        deleteDirectory [100] (createDirectory [100] createAndFormatPartition).2
          = Except.ok (Msg.directoryNotEmpty, (createDirectory [100] createAndFormatPartition).2)) ∧
      ((¬ ∃ j, j < DIRECTORY_SIZE ∧
          IsOtherFile (createDirectory [100] createAndFormatPartition).2.directory [100] j) →
        deleteDirectory [100] (createDirectory [100] createAndFormatPartition).2
          = Except.ok (Msg.directoryDeleted,
            { (createDirectory [100] createAndFormatPartition).2 with
              directory := Function.update
                (createDirectory [100] createAndFormatPartition).2.directory i zeroEntry })) :=
  deleteDirectory_not_empty_iff_other_file (createDirectory [100] createAndFormatPartition).2 [100]
    (namesTerminated_createDirectory [100] namesTerminated_format (by decide))
    ⟨0, by decide, by decide, by decide⟩

theorem findFile_first {dir : Nat → DirectoryEntry} {name : List Nat} {i fuel r : Nat}
    (ht : ∀ j, i ≤ j → j < i + fuel → 0 ∈ (dir j).fileName)
    (hr1 : i ≤ r) (hr2 : r < i + fuel) (hP : IsFileNamed dir name r)
    (hfirst : ∀ j, i ≤ j → j < r → ¬ IsFileNamed dir name j) :
    findFile dir name i fuel = Except.ok (some r) := by
  induction fuel generalizing i with
  | zero => omega
  | succ m ih =>
    rw [findFile, strcmpEq_terminated _ (ht i (le_refl _) (by omega))]
    by_cases hir : i = r
    · subst hir
      simp [hP.1, hP.2]
    · have hnot := hfirst i (le_refl _) (by omega)
      have : ¬ (decide (cstr (dir i).fileName = cstr name) = true ∧ (dir i).isDirectory = 0) := by
        simpa [IsFileNamed] using hnot
      simp only [this, if_false]
      exact @ih (i + 1) (fun j h1 h2 => ht j (by omega) (by omega)) (by omega) (by omega)
        (fun j h1 h2 => hfirst j (by omega) h2)

theorem findFile_none {dir : Nat → DirectoryEntry} {name : List Nat} {i fuel : Nat}
    (ht : ∀ j, i ≤ j → j < i + fuel → 0 ∈ (dir j).fileName)
    (hno : ∀ j, i ≤ j → j < i + fuel → ¬ IsFileNamed dir name j) :
    findFile dir name i fuel = Except.ok none := by
  induction fuel generalizing i with
  | zero => rfl
  | succ m ih =>
    rw [findFile, strcmpEq_terminated _ (ht i (le_refl _) (by omega))]
    have hnot := hno i (le_refl _) (by omega)
    have : ¬ (decide (cstr (dir i).fileName = cstr name) = true ∧ (dir i).isDirectory = 0) := by
      simpa [IsFileNamed] using hnot
    simp only [this, if_false]
    exact @ih (i + 1) (fun j h1 h2 => ht j (by omega) (by omega))
      (fun j h1 h2 => hno j (by omega) (by omega))

theorem findFile_of_first {s : Volume} {name : List Nat} {i : Nat}
    (hs : NamesTerminated s) (hf : FirstFileNamed s.directory name i) :
    findFile s.directory name 0 DIRECTORY_SIZE = Except.ok (some i) :=
  findFile_first (fun j _ h => hs j (by omega)) (Nat.zero_le _) (by have := hf.1; omega) hf.2.1
    (fun j _ h => hf.2.2 j h)

theorem firstEmptySlot_eq_none {dir : Nat → DirectoryEntry}
    (h : ∀ j, j < DIRECTORY_SIZE → emptySlot (dir j) = false) :
    firstEmptySlot dir 0 DIRECTORY_SIZE = none := by
  cases hr : firstEmptySlot dir 0 DIRECTORY_SIZE with
  | none => rfl
  | some r =>
    obtain ⟨-, h2, h3, -⟩ := firstEmptySlot_some hr
    rw [h r (by omega)] at h3
    cases h3

/-- C13: `createFile(name, size)` with `size > MAX_FILE_SIZE` prints the
size-exceeded error, and with `size ≤ MAX_FILE_SIZE` on a directory without an
empty slot prints the directory-full error; in both cases the state (FAT,
Directory Table and disk) is returned unchanged. -/
theorem createFile_rejects_without_side_effects (s : Volume) (name : List Nat) (size : Int) :
    (size > MAX_FILE_SIZE → createFile name size s = (Msg.fileSizeExceeds, s)) ∧
    (size ≤ MAX_FILE_SIZE → (∀ j, j < DIRECTORY_SIZE → emptySlot (s.directory j) = false) →
      createFile name size s = (Msg.directoryFull, s)) := by
  constructor
  · intro h
    unfold createFile
    rw [if_pos h]
  · intro h hfull
    unfold createFile
    rw [if_neg (not_lt.mpr h), firstEmptySlot_eq_none hfull]

/-- Witness for C13: `createFile("a", 129)` on a freshly formatted volume and
`createFile("a", 1)` on a volume whose directory is full. -/
theorem createFile_rejects_without_side_effects_witness :
    createFile [97] 129 createAndFormatPartition
      = (Msg.fileSizeExceeds, createAndFormatPartition) ∧
    createFile [97] 1 fullDirectoryVolume = (Msg.directoryFull, fullDirectoryVolume) :=
  ⟨(createFile_rejects_without_side_effects createAndFormatPartition [97] 129).1 (by decide),
    (createFile_rejects_without_side_effects fullDirectoryVolume [97] 1).2 (by decide)
      (fun _ _ => rfl)⟩

/-- C14: for an existing file (the slot the lookup of `name` stops at, in a
state whose names are terminated) of size `n` and every `k > n`,
`truncateFile(name, k)` prints the new-size-exceeds error and returns the state
unchanged: the FAT and the Directory Table, the entry's size included. -/
theorem truncateFile_only_shrinks (s : Volume) (name : List Nat) (i : Nat) (k : Int)
    (hs : NamesTerminated s) (hf : FirstFileNamed s.directory name i)
    (hk : k > (s.directory i).size) :
    truncateFile name k s = Except.ok (Msg.newSizeExceeds, s) := by
  unfold truncateFile
  rw [findFile_of_first hs hf]
  simp only
  rw [if_pos hk]

/-- Witness for C14: `truncateFile("a", 3)` after `createFile("a", 2)` on a
freshly formatted volume. -/
theorem truncateFile_only_shrinks_witness :
    ((createFile [97] 2 createAndFormatPartition).2.directory 0).size = 2 ∧
    truncateFile [97] 3 (createFile [97] 2 createAndFormatPartition).2
      = Except.ok (Msg.newSizeExceeds, (createFile [97] 2 createAndFormatPartition).2) :=
  ⟨by decide,
    truncateFile_only_shrinks (createFile [97] 2 createAndFormatPartition).2 [97] 0 3
      (namesTerminated_createFile [97] 2 namesTerminated_format (by decide))
      ⟨by decide, ⟨by decide, by decide⟩, fun j hj => by omega⟩ (by decide)⟩

theorem firstEmptySlot_eq_some {dir : Nat → DirectoryEntry} {i : Nat}
    (hi : i < DIRECTORY_SIZE) (he : emptySlot (dir i) = true)
    (hfirst : ∀ j, j < i → emptySlot (dir j) = false) :
    firstEmptySlot dir 0 DIRECTORY_SIZE = some i := by
  obtain ⟨r, hr⟩ := firstEmptySlot_of_exists ⟨i, hi, he⟩
  obtain ⟨-, -, h3, h4⟩ := firstEmptySlot_some hr
  have h1 : ¬ r < i := fun h => by rw [hfirst r h] at h3; cases h3
  have h2 : ¬ i < r := fun h => by rw [h4 i (Nat.zero_le _) h] at he; cases he
  have : r = i := by omega
  rw [hr, this]

theorem emptySlot_strncpy (name : List Nat) (x y z : Int) (h : cstr name ≠ []) :
    emptySlot { fileName := strncpy name MAX_FILE_NAME_SIZE, startBlock := x, size := y,
                isDirectory := z } = false := by
  cases hc : cstr name with
  | nil => exact absurd hc h
  | cons c cs =>
    have hne : c ≠ 0 := cstr_nonzero name c (by rw [hc]; simp)
    simp [emptySlot, strncpy, hc, MAX_FILE_NAME_SIZE, hne]

/-- C16: for every state and non-empty name, `createDirectory(name)` leaves the
FAT (and the disk) unchanged. When a slot is free it prints the success line and
changes only the first free slot, which becomes an occupied Directory entry
whose `fileName` is the name as `strncpy` stores it (the name itself, terminated,
when it is shorter than `MAX_FILE_NAME_SIZE`); when no slot is free it prints
the directory-full error and returns the state unchanged. -/
theorem createDirectory_reserves_no_blocks (s : Volume) (name : List Nat)
    (hname : cstr name ≠ []) :
    (createDirectory name s).2.FAT = s.FAT ∧
    (createDirectory name s).2.diskFile = s.diskFile ∧
    (∀ i, i < DIRECTORY_SIZE → emptySlot (s.directory i) = true →
      (∀ j, j < i → emptySlot (s.directory j) = false) →
        (createDirectory name s).1 = Msg.directoryCreated ∧
        (∀ j, j ≠ i → (createDirectory name s).2.directory j = s.directory j) ∧
        emptySlot ((createDirectory name s).2.directory i) = false ∧
        ((createDirectory name s).2.directory i).isDirectory = 1 ∧
        ((createDirectory name s).2.directory i).fileName = strncpy name MAX_FILE_NAME_SIZE ∧
        ((cstr name).length < MAX_FILE_NAME_SIZE →
          cstr ((createDirectory name s).2.directory i).fileName = cstr name)) ∧
    ((∀ j, j < DIRECTORY_SIZE → emptySlot (s.directory j) = false) →
      createDirectory name s = (Msg.directoryFull, s)) := by
  refine ⟨?_, ?_, ?_, ?_⟩
  · unfold createDirectory
    cases firstEmptySlot s.directory 0 DIRECTORY_SIZE <;> rfl
  · unfold createDirectory
    cases firstEmptySlot s.directory 0 DIRECTORY_SIZE <;> rfl
  · intro i hi he hfirst
    unfold createDirectory
    rw [firstEmptySlot_eq_some hi he hfirst]
    simp only [Function.update_same]
    refine ⟨trivial, fun j hj => Function.update_noteq hj _ _, emptySlot_strncpy name _ _ _ hname,
      trivial, trivial, fun hlen => (cstr_strncpy name _ hlen).1⟩
  · intro hfull
    unfold createDirectory
    rw [firstEmptySlot_eq_none hfull]

/-- Witness for C16: `createDirectory("d")` on a freshly formatted volume. -/
theorem createDirectory_reserves_no_blocks_witness :
    (createDirectory [100] createAndFormatPartition).2.FAT = createAndFormatPartition.FAT ∧
    (createDirectory [100] createAndFormatPartition).1 = Msg.directoryCreated ∧
    ((createDirectory [100] createAndFormatPartition).2.directory 0).isDirectory = 1 ∧
    cstr ((createDirectory [100] createAndFormatPartition).2.directory 0).fileName = cstr [100] :=
  have h := createDirectory_reserves_no_blocks createAndFormatPartition [100] (by decide)
  have h0 := h.2.2.1 0 (by decide) (by decide) (fun j hj => absurd hj (Nat.not_lt_zero j))
  ⟨h.1, h0.1, h0.2.2.2.1, h0.2.2.2.2.2 (by decide)⟩

/-- C15, counterexample: `createFile("a", 1)` twice on a freshly formatted
volume. The second call prints the success line and slots 0 and 1 are two
occupied slots holding the same name. -/
theorem duplicate_name_counterexample :
    ∃ s, Reachable s ∧
      emptySlot (s.directory 0) = false ∧ emptySlot (s.directory 1) = false ∧
      cstr (s.directory 0).fileName = [97] ∧ cstr (s.directory 1).fileName = [97] ∧
      (createFile [97] 1 (createFile [97] 1 createAndFormatPartition).2).1 = Msg.fileCreated :=
  ⟨_, ⟨[Op.createFile [97] 1, Op.createFile [97] 1], rfl⟩,
    by decide, by decide, by decide, by decide, by decide⟩

/-- C15, amended: names are not kept unique. When an occupied slot `j` already
holds the name (non-empty, shorter than `MAX_FILE_NAME_SIZE`) and some slot is
free, `createFile(name, size)` with `size ≤ MAX_FILE_SIZE` and
`createDirectory(name)` both print their success line and write the name into
the first free slot `i`, which is not `j`: afterwards the two distinct occupied
slots `i` and `j` hold the same name. -/
theorem create_accepts_duplicate_name (s : Volume) (name : List Nat) (size : Int) (j : Nat)
    (hocc : emptySlot (s.directory j) = false)
    (hheld : cstr (s.directory j).fileName = cstr name)
    (hname : cstr name ≠ []) (hlen : (cstr name).length < MAX_FILE_NAME_SIZE)
    (hsize : size ≤ MAX_FILE_SIZE)
    (hslot : ∃ i, i < DIRECTORY_SIZE ∧ emptySlot (s.directory i) = true) :
    ∃ i, i < DIRECTORY_SIZE ∧ i ≠ j ∧ emptySlot (s.directory i) = true ∧
      (∀ k, k < i → emptySlot (s.directory k) = false) ∧
      (createFile name size s).1 = Msg.fileCreated ∧
      emptySlot ((createFile name size s).2.directory i) = false ∧
      cstr ((createFile name size s).2.directory i).fileName = cstr name ∧
      emptySlot ((createFile name size s).2.directory j) = false ∧
      cstr ((createFile name size s).2.directory j).fileName = cstr name ∧
      (createDirectory name s).1 = Msg.directoryCreated ∧
      emptySlot ((createDirectory name s).2.directory i) = false ∧
      cstr ((createDirectory name s).2.directory i).fileName = cstr name ∧
      emptySlot ((createDirectory name s).2.directory j) = false ∧
      cstr ((createDirectory name s).2.directory j).fileName = cstr name := by
  obtain ⟨i, hi⟩ := firstEmptySlot_of_exists hslot
  obtain ⟨-, hi2, hi3, hi4⟩ := firstEmptySlot_some hi
  have hij : i ≠ j := by
    intro e
    rw [e, hocc] at hi3
    cases hi3
  have hcs := (cstr_strncpy name MAX_FILE_NAME_SIZE hlen).1
  refine ⟨i, by simpa using hi2, hij, hi3, fun k hk => hi4 k (Nat.zero_le _) hk, ?_⟩
  rw [createFile_eq hsize hi]
  unfold createDirectory
  rw [hi]
  simp only [Function.update_same, Function.update_noteq (Ne.symm hij)]
  exact ⟨trivial, emptySlot_strncpy name _ _ _ hname, hcs, hocc, hheld, trivial,
    emptySlot_strncpy name _ _ _ hname, hcs, hocc, hheld⟩

/-- Witness for C15 (amended): a second `createFile("a", 1)` / `createDirectory("a")`
after `createFile("a", 1)` on a freshly formatted volume. -/
theorem create_accepts_duplicate_name_witness :
    ∃ i, i < DIRECTORY_SIZE ∧ i ≠ 0 ∧
      emptySlot ((createFile [97] 1 createAndFormatPartition).2.directory i) = true ∧
      (∀ k, k < i → emptySlot ((createFile [97] 1 createAndFormatPartition).2.directory k) = false) ∧
      (createFile [97] 1 (createFile [97] 1 createAndFormatPartition).2).1 = Msg.fileCreated ∧
      emptySlot ((createFile [97] 1 (createFile [97] 1 createAndFormatPartition).2).2.directory i)
        = false ∧
      cstr ((createFile [97] 1 (createFile [97] 1 createAndFormatPartition).2).2.directory i).fileName
        = cstr [97] ∧
      emptySlot ((createFile [97] 1 (createFile [97] 1 createAndFormatPartition).2).2.directory 0)
        = false ∧
      cstr ((createFile [97] 1 (createFile [97] 1 createAndFormatPartition).2).2.directory 0).fileName
        = cstr [97] ∧
      (createDirectory [97] (createFile [97] 1 createAndFormatPartition).2).1
        = Msg.directoryCreated ∧
      emptySlot ((createDirectory [97] (createFile [97] 1 createAndFormatPartition).2).2.directory i)
        = false ∧
      cstr ((createDirectory [97] (createFile [97] 1 createAndFormatPartition).2).2.directory i).fileName
        = cstr [97] ∧
      emptySlot ((createDirectory [97] (createFile [97] 1 createAndFormatPartition).2).2.directory 0)
        = false ∧
      cstr ((createDirectory [97] (createFile [97] 1 createAndFormatPartition).2).2.directory 0).fileName
        = cstr [97] :=
  create_accepts_duplicate_name (createFile [97] 1 createAndFormatPartition).2 [97] 1 0
    (by decide) (by decide) (by decide) (by decide) (by decide) ⟨1, by decide, by decide⟩

theorem wrapInt_of_range {x : Int} (h1 : -2147483648 ≤ x) (h2 : x < 2147483648) :
    wrapInt x = x := by
  unfold wrapInt
  omega

/-- Frame of `writeFile`: whatever the state, name, data and length, a call that
returns hands back the FAT and the Directory Table it was given. When the
length exceeds `size * BLOCK_SIZE` of the file the lookup stops at (names
terminated) and that product lies within `int`, it prints the
data-size-exceeds error and returns the whole state, disk blocks included,
unchanged; when no slot passes the lookup it prints the not-found error and
returns the state unchanged. -/
theorem writeFile_never_reallocates (s : Volume) (name data : List Nat) (dataSize : Int) :
    (∀ m s1, writeFile name data dataSize s = Except.ok (m, s1) →
      s1.FAT = s.FAT ∧ s1.directory = s.directory) ∧
    (∀ i, NamesTerminated s → FirstFileNamed s.directory name i →
      -2097152 ≤ (s.directory i).size → (s.directory i).size < 2097152 →
      dataSize > (s.directory i).size * BLOCK_SIZE →
      writeFile name data dataSize s = Except.ok (Msg.dataSizeExceeds, s)) ∧
    (NamesTerminated s → (∀ j, j < DIRECTORY_SIZE → ¬ IsFileNamed s.directory name j) →
      writeFile name data dataSize s = Except.ok (Msg.fileNotFound, s)) := by
  refine ⟨?_, ?_, ?_⟩
  · intro m s1 h
    unfold writeFile at h
    cases hf : findFile s.directory name 0 DIRECTORY_SIZE with
    | error f => rw [hf] at h; cases h
    | ok r =>
      rw [hf] at h
      cases r with
      | none =>
        simp only [Except.ok.injEq, Prod.mk.injEq] at h
        rw [← h.2]
        exact ⟨rfl, rfl⟩
      | some i =>
        simp only at h
        split at h
        · simp only [Except.ok.injEq, Prod.mk.injEq] at h
          rw [← h.2]
          exact ⟨rfl, rfl⟩
        · split at h
          · cases h
          · simp only [Except.ok.injEq, Prod.mk.injEq] at h
            rw [← h.2]
            exact ⟨rfl, rfl⟩
  · intro i hs hf h1 h2 hgt
    unfold writeFile
    rw [findFile_of_first hs hf]
    simp only
    have hw : wrapInt ((s.directory i).size * BLOCK_SIZE) = (s.directory i).size * BLOCK_SIZE := by
      apply wrapInt_of_range <;> simp only [BLOCK_SIZE] <;> omega
    rw [hw, if_pos hgt]
  · intro hs hno
    unfold writeFile
    rw [findFile_none (fun j _ h => hs j (by omega)) (fun j _ h => hno j (by omega))]

/-- An instance of the frame of `writeFile`: after `createFile("a", 1)` on a
freshly formatted volume, `writeFile("a", data, 1025)` exceeds the capacity of
1024 bytes and `writeFile("b", data, 1)` finds no file. -/
theorem writeFile_never_reallocates_witness :
    writeFile [97] [] 1025 (createFile [97] 1 createAndFormatPartition).2
      = Except.ok (Msg.dataSizeExceeds, (createFile [97] 1 createAndFormatPartition).2) ∧
    writeFile [98] [1] 1 (createFile [97] 1 createAndFormatPartition).2
      = Except.ok (Msg.fileNotFound, (createFile [97] 1 createAndFormatPartition).2) :=
  have hs : NamesTerminated (createFile [97] 1 createAndFormatPartition).2 :=
    namesTerminated_createFile [97] 1 namesTerminated_format (by decide)
  ⟨(writeFile_never_reallocates (createFile [97] 1 createAndFormatPartition).2 [97] [] 1025).2.1 0
      hs ⟨by decide, ⟨by decide, by decide⟩, fun j hj => by omega⟩
      (by decide) (by decide) (by decide),
    (writeFile_never_reallocates (createFile [97] 1 createAndFormatPartition).2 [98] [1] 1).2.2
      hs (by
        intro j _ h
        by_cases hj : j = 0
        · subst hj
          have h1 := h.1
          revert h1
          decide
        · have : (createFile [97] 1 createAndFormatPartition).2.directory j = zeroEntry := by
            rw [createFile_eq (by decide) (show firstEmptySlot createAndFormatPartition.directory 0
              DIRECTORY_SIZE = some 0 by decide)]
            simp only [Function.update_noteq hj]
            rfl
          have h1 := h.1
          rw [this] at h1
          revert h1
          decide)⟩

set_option maxRecDepth 200000 in
/-- C12, evaluation at the failing input: `createFile("o", -2097153)` on a freshly
formatted volume, then `writeFile("o", "hello", 5)`. The length 5 exceeds
`size * BLOCK_SIZE = -2147484672`, but that product does not fit an `int` and
the capacity test compares against the wrapped value 2147482624: the call prints
the success line and overwrites disk block 0. -/
theorem writeFile_capacity_check_overflows :
    ((createFile [111] (-2097153) createAndFormatPartition).2.directory 0).size * BLOCK_SIZE
      = -2147484672 ∧
    wrapInt (((createFile [111] (-2097153) createAndFormatPartition).2.directory 0).size
      * BLOCK_SIZE) = 2147482624 ∧
    ∃ s1, writeFile [111] [104, 101, 108, 108, 111] 5
        (createFile [111] (-2097153) createAndFormatPartition).2
        = Except.ok (Msg.dataWritten, s1) ∧
      (blockContent (createFile [111] (-2097153) createAndFormatPartition).2.diskFile 0).take 5
        = [255, 255, 255, 255, 255] ∧
      (blockContent s1.diskFile 0).take 5 = [104, 101, 108, 108, 111] :=
  ⟨by decide, by decide, _, rfl, by decide, by decide⟩

theorem blockContent_writeBlock_same (b : Nat) (hb : b < TOTAL_BLOCKS) (buf : List Nat)
    (d : Disk) : blockContent (writeBlock (b : Int) buf d) b = buf := by
  have h1 : ¬ ((b : Int) < 0 ∨ (b : Int) ≥ (TOTAL_BLOCKS : Int)) := by omega
  simp only [blockContent, readBlock, writeBlock, if_neg h1, Int.toNat_ofNat]
  have h2 : b < max d.nblocks (b + 1) := by omega
  simp [h2]

theorem blockContent_writeBlock_ne (b j : Nat) (hj : j ≠ b) (buf : List Nat) (d : Disk) :
    blockContent (writeBlock (b : Int) buf d) j = blockContent d j := by
  unfold blockContent readBlock writeBlock
  by_cases h1 : ((b : Int) < 0 ∨ (b : Int) ≥ (TOTAL_BLOCKS : Int))
  · simp only [if_pos h1]
  · simp only [if_neg h1, Int.toNat_ofNat]
    by_cases h0 : ((j : Int) < 0 ∨ (j : Int) ≥ (TOTAL_BLOCKS : Int))
    · simp only [if_pos h0]
    · simp only [if_neg h0, if_neg hj]
      by_cases hn : j < d.nblocks
      · have h2 : j < max d.nblocks (b + 1) := by omega
        have h3 : ¬ (d.nblocks ≤ j ∧ j < b) := by omega
        simp [hn, h2, h3]
      · by_cases hg : j < b
        · have h2 : j < max d.nblocks (b + 1) := by omega
          have h3 : d.nblocks ≤ j ∧ j < b := by omega
          simp [hn, h2, h3]
        · have h2 : ¬ j < max d.nblocks (b + 1) := by omega
          simp [hn, h2]

theorem writeLoop_exit (fat : Nat → Int) (data : List Nat) (L off f : Nat) (d : Disk)
    (block : Int) (h : L ≤ off) :
    writeLoop fat data (L : Int) d block (off : Int) (f + 1) = Except.ok d := by
  have : ¬ (block ≠ -1 ∧ (off : Int) < (L : Int)) := by omega
  rw [writeLoop, if_neg this]

theorem writeLoop_step (fat : Nat → Int) (data : List Nat) (L off f b : Nat) (d : Disk)
    (hL : data.length = L) (hoff : off < L) (hb : b < TOTAL_BLOCKS) :
    writeLoop fat data (L : Int) d (b : Int) (off : Int) (f + 1)
      = writeLoop fat data (L : Int) (writeBlock (b : Int) (paddedChunk data off) d) (fat b)
          ((off + min BLOCK_SIZE (L - off) : Nat) : Int) f := by
  have hc : ((b : Int) ≠ -1 ∧ (off : Int) < (L : Int)) := by omega
  have hr : (0 ≤ (b : Int) ∧ (b : Int) < (TOTAL_BLOCKS : Int)) := by omega
  rw [writeLoop, if_pos hc]
  simp only [if_pos hr, Int.toNat_ofNat]
  by_cases hbig : (L : Int) - (off : Int) > (BLOCK_SIZE : Int)
  · have hm : min BLOCK_SIZE (L - off) = BLOCK_SIZE := by omega
    have hov : ¬ ((off : Int) < 0 ∨ (data.length : Int) < (off : Int) + (BLOCK_SIZE : Int)) := by
      omega
    simp only [if_pos hbig, if_neg hov, Int.toNat_ofNat, hm]
    rfl
  · have hm : min BLOCK_SIZE (L - off) = L - off := by omega
    have hov : ¬ ((off : Int) < 0 ∨ (data.length : Int) < (off : Int) + ((L : Int) - (off : Int))) := by
      omega
    have ht : ((L : Int) - (off : Int)).toNat = L - off := by omega
    have hlen : (data.drop off).length = L - off := by simp [hL]
    have hbs : L - off ≤ BLOCK_SIZE := by omega
    have htake : (data.drop off).take (L - off) = (data.drop off).take BLOCK_SIZE := by
      rw [List.take_of_length_le (by omega), List.take_of_length_le (by omega)]
    have hcast : (off : Int) + ((L : Int) - (off : Int)) = ((off + (L - off) : Nat) : Int) := by
      omega
    have hov2 : ¬ ((off : Int) < 0 ∨ (data.length : Int) < ((off + (L - off) : Nat) : Int)) := by
      omega
    simp only [if_neg hbig, if_neg hov, ht, hm, htake, hcast, if_neg hov2]
    rfl
theorem chain_cons {fat : Nat → Int} {b : Int} {cf c : Nat} {cs : List Nat}
    (h : chain fat b cf = c :: cs) :
    ∃ cf1, cf = cf1 + 1 ∧ b = (c : Int) ∧ c < TOTAL_BLOCKS ∧ chain fat (fat c) cf1 = cs := by
  cases cf with
  | zero => simp [chain] at h
  | succ cf1 =>
    rw [chain] at h
    by_cases hr : 0 ≤ b ∧ b < (TOTAL_BLOCKS : Int)
    · rw [if_pos hr] at h
      simp only [List.cons.injEq] at h
      obtain ⟨h1, h2⟩ := h
      have hb : b = (c : Int) := by omega
      refine ⟨cf1, rfl, hb, by omega, ?_⟩
      rw [← h1]
      exact h2
    · rw [if_neg hr] at h
      cases h

/-- The loop of `writeFile` along a chain of distinct blocks: it returns, block
`i` of the chain receives the bytes at `off + i * BLOCK_SIZE` while these lie
inside the data, and no other block changes its content. -/
theorem writeLoop_along_chain (fat : Nat → Int) (data : List Nat) (L : Nat)
    (hL : data.length = L) :
    ∀ (cs : List Nat) (block : Int) (off : Nat) (d : Disk) (fuel cf : Nat),
      chain fat block cf = cs → cs.Nodup → off ≤ L → L - off ≤ cs.length * BLOCK_SIZE →
      L - off < fuel →
      ∃ d1, writeLoop fat data (L : Int) d block (off : Int) fuel = Except.ok d1 ∧
        (∀ i b, cs[i]? = some b → off + i * BLOCK_SIZE < L →
          blockContent d1 b = paddedChunk data (off + i * BLOCK_SIZE)) ∧
        (∀ j, (∀ i b, cs[i]? = some b → off + i * BLOCK_SIZE < L → b ≠ j) →
          blockContent d1 j = blockContent d j) := by
  intro cs
  induction cs with
  | nil =>
    intro block off d fuel cf _ _ hoff hcap hfuel
    obtain ⟨f, rfl⟩ : ∃ f, fuel = f + 1 := ⟨fuel - 1, by omega⟩
    have : L ≤ off := by simp at hcap; omega
    exact ⟨d, writeLoop_exit fat data L off f d block this, by simp, fun _ _ => rfl⟩
  | cons c rest ih =>
    intro block off d fuel cf hch hnd hoff hcap hfuel
    obtain ⟨f, rfl⟩ : ∃ f, fuel = f + 1 := ⟨fuel - 1, by omega⟩
    by_cases hdone : L ≤ off
    · refine ⟨d, writeLoop_exit fat data L off f d block hdone, ?_, fun _ _ => rfl⟩
      intro i b _ hlt
      have : i * BLOCK_SIZE ≥ 0 := Nat.zero_le _
      omega
    · obtain ⟨cf1, -, hb, hc, hch1⟩ := chain_cons hch
      subst hb
      have hcnot : c ∉ rest := (List.nodup_cons.mp hnd).1
      have hnd1 : rest.Nodup := (List.nodup_cons.mp hnd).2
      have hBS : BLOCK_SIZE = 1024 := rfl
      simp only [List.length_cons] at hcap
      obtain ⟨d1, hw, hcont, hframe⟩ := ih (fat c) (off + min BLOCK_SIZE (L - off))
        (writeBlock (c : Int) (paddedChunk data off) d) f cf1 hch1 hnd1
        (by omega) (by rw [hBS] at hcap ⊢; omega) (by omega)
      refine ⟨d1, ?_, ?_, ?_⟩
      · rw [writeLoop_step fat data L off f c d hL (by omega) hc]
        exact hw
      · intro i b hib hlt
        cases i with
        | zero =>
          simp only [List.getElem?_cons_zero, Option.some.injEq] at hib
          subst hib
          have hfr := hframe c (fun i b hib _ hbc => hcnot (hbc ▸ List.getElem?_mem hib))
          rw [hfr, blockContent_writeBlock_same c hc]
          simp
        | succ i =>
          simp only [List.getElem?_cons_succ] at hib
          have hlt2 : off + min BLOCK_SIZE (L - off) + i * BLOCK_SIZE < L := by
            rw [hBS] at hlt ⊢; omega
          have heq : off + (i + 1) * BLOCK_SIZE = off + min BLOCK_SIZE (L - off) + i * BLOCK_SIZE := by
            rw [hBS] at hlt ⊢; omega
          rw [heq]
          exact hcont i b hib hlt2
      · intro j hj
        have hjc : j ≠ c := fun e => hj 0 c (by simp) (by omega) e.symm
        have hfr := hframe j (by
          intro i b hib hlt
          have hlt2 : off + (i + 1) * BLOCK_SIZE < L := by
            rw [hBS] at hlt ⊢; omega
          exact hj (i + 1) b (by simpa using hib) hlt2)
        rw [hfr, blockContent_writeBlock_ne c j hjc]
theorem chain_lt (fat : Nat → Int) (b : Int) (cf : Nat) :
    ∀ x ∈ chain fat b cf, x < TOTAL_BLOCKS := by
  induction cf generalizing b with
  | zero => simp [chain]
  | succ cf1 ih =>
    intro x hx
    rw [chain] at hx
    by_cases hr : 0 ≤ b ∧ b < (TOTAL_BLOCKS : Int)
    · rw [if_pos hr] at hx
      rcases List.mem_cons.mp hx with h | h
      · omega
      · exact ih _ x h
    · rw [if_neg hr] at hx
      cases hx

theorem length_le_of_nodup_lt {l : List Nat} {n : Nat} (hnd : l.Nodup)
    (hlt : ∀ x ∈ l, x < n) : l.length ≤ n := by
  have hsub : l ⊆ List.range n := fun x hx => List.mem_range.mpr (hlt x hx)
  have := (List.subperm_of_subset hnd hsub).length_le
  simpa using this

/-- C11: for a file (the slot the lookup of `name` stops at, names terminated)
with entry size `n` whose chain is the `n` distinct blocks `bs`, and data of
length `L ≤ n * BLOCK_SIZE`, `writeFile(name, data, L)` prints the success line
and leaves FAT and directory as they were; afterwards every chain block `bs[k]`
with `k * BLOCK_SIZE < L` (that is `k < ceil(L / BLOCK_SIZE)`) holds the bytes
`data[k * BLOCK_SIZE ..]`, zero-padded to `BLOCK_SIZE`, and every other disk
block, the remaining chain blocks included, keeps its previous content. -/
theorem writeFile_fills_chain_prefix (s : Volume) (name data : List Nat) (i n : Nat)
    (bs : List Nat)
    (hs : NamesTerminated s) (hf : FirstFileNamed s.directory name i)
    (hsize : (s.directory i).size = n)
    (hchain : chain s.FAT (s.directory i).startBlock (TOTAL_BLOCKS + 1) = bs)
    (hlen : bs.length = n) (hnd : bs.Nodup)
    (hcap : data.length ≤ n * BLOCK_SIZE) :
    ∃ s1, writeFile name data data.length s = Except.ok (Msg.dataWritten, s1) ∧
      s1.FAT = s.FAT ∧ s1.directory = s.directory ∧
      (∀ k b, bs[k]? = some b → k * BLOCK_SIZE < data.length →
        blockContent s1.diskFile b = paddedChunk data (k * BLOCK_SIZE)) ∧
      (∀ j, (∀ k b, bs[k]? = some b → k * BLOCK_SIZE < data.length → b ≠ j) →
        blockContent s1.diskFile j = blockContent s.diskFile j) := by
  have hn : n ≤ TOTAL_BLOCKS := by
    rw [← hlen]
    apply length_le_of_nodup_lt hnd
    rw [← hchain]
    exact chain_lt _ _ _
  have hBS : BLOCK_SIZE = 1024 := rfl
  have hTB : TOTAL_BLOCKS = 65536 := rfl
  have hcap2 : data.length ≤ n * 1024 := hcap
  obtain ⟨d1, hw, hcont, hframe⟩ := writeLoop_along_chain s.FAT data data.length rfl bs
    (s.directory i).startBlock 0 s.diskFile (data.length + 1) (TOTAL_BLOCKS + 1) hchain hnd
    (Nat.zero_le _) (by rw [hlen]; exact (Nat.sub_le _ _).trans hcap) (by omega)
  have hw2 : writeLoop s.FAT data (data.length : Int) s.diskFile (s.directory i).startBlock 0
      (data.length + 1) = Except.ok d1 := by simpa using hw
  have hchk : ¬ ((data.length : Int) > wrapInt ((s.directory i).size * (BLOCK_SIZE : Int))) := by
    rw [hsize, wrapInt_of_range] <;> simp only [hBS] <;> omega
  refine ⟨{ s with diskFile := d1 }, ?_, rfl, rfl, ?_, ?_⟩
  · unfold writeFile
    rw [findFile_of_first hs hf]
    simp only [if_neg hchk, Int.toNat_ofNat, hw2]
  · intro k b hkb hlt
    have := hcont k b hkb (by omega)
    simpa using this
  · intro j hj
    exact hframe j (fun k b hkb hlt => hj k b hkb (by omega))
/-- Witness for C11: `writeFile("a", "hi", 2)` after `createFile("a", 2)` on a
freshly formatted volume; the chain is blocks 0 and 1. -/
theorem writeFile_fills_chain_prefix_witness :
    ∃ s1, writeFile [97] [104, 105] 2 (createFile [97] 2 createAndFormatPartition).2
        = Except.ok (Msg.dataWritten, s1) ∧
      blockContent s1.diskFile 0 = paddedChunk [104, 105] 0 ∧
      blockContent s1.diskFile 1
        = blockContent (createFile [97] 2 createAndFormatPartition).2.diskFile 1 := by
  obtain ⟨s1, h1, -, -, h4, h5⟩ :=
    writeFile_fills_chain_prefix (createFile [97] 2 createAndFormatPartition).2 [97] [104, 105]
      0 2 [0, 1]
      (namesTerminated_createFile [97] 2 namesTerminated_format (by decide))
      ⟨by decide, ⟨by decide, by decide⟩, fun j hj => by omega⟩
      (by decide) (by decide) rfl (by decide) (by decide)
  refine ⟨s1, h1, ?_, ?_⟩
  · simpa using h4 0 0 rfl (by decide)
  · apply h5
    intro k b hkb hlt
    have hk : k = 0 := by
      have hBS : BLOCK_SIZE = 1024 := rfl
      rw [hBS] at hlt
      simp at hlt
      omega
    subst hk
    simp at hkb
    omega

/-- C17, evaluation at the failing input: after `createFile("a", 2)` on a freshly
formatted volume the chain of `a` is blocks 0 and 1, ended by `-2`. The walks of
`readFile("a")`, `deleteFile("a")` and `truncateFile("a", 1)` do not stop there:
each goes on with `block = -2` and indexes `FAT[-2]`. -/
theorem chain_walks_index_end_marker :
    chain (createFile [97] 2 createAndFormatPartition).2.FAT
      ((createFile [97] 2 createAndFormatPartition).2.directory 0).startBlock
      (TOTAL_BLOCKS + 1) = [0, 1] ∧
    (createFile [97] 2 createAndFormatPartition).2.FAT 1 = -2 ∧
    readFile [97] (createFile [97] 2 createAndFormatPartition).2
      = Except.error (Fault.fatIndexOutOfRange (-2)) ∧
    deleteFile [97] (createFile [97] 2 createAndFormatPartition).2
      = Except.error (Fault.fatIndexOutOfRange (-2)) ∧
    truncateFile [97] 1 (createFile [97] 2 createAndFormatPartition).2
      = Except.error (Fault.fatIndexOutOfRange (-2)) :=
  ⟨by decide, by decide, rfl, rfl, rfl⟩

/-- C18, evaluation at the failing input: `createFile("a", 1)` then
`createFile("z", 0)` on a freshly formatted volume. The entry of `z` (slot 1)
keeps the `startBlock` 0 left by `memset`, which is the block of file `a`; the
walks of `deleteFile("z")`, `readFile("z")` and `truncateFile("z", 0)` start
there, pass the block of `a` and index `FAT[-2]`. On a volume without other
files `readFile("z")` returns, after reading one block (block 0) for a file of
zero blocks. -/
theorem zero_size_file_walks_other_chain :
    (readFile [122] (createFile [122] 0 createAndFormatPartition).2).map
      (fun r => (r.1, r.2.length)) = Except.ok (Msg.endOfFile, 1) ∧
    ∃ s, Reachable s ∧
      findFile s.directory [122] 0 DIRECTORY_SIZE = Except.ok (some 1) ∧
      (s.directory 1).size = 0 ∧ (s.directory 1).startBlock = 0 ∧
      (s.directory 0).startBlock = 0 ∧ s.FAT 0 = -2 ∧
      chain s.FAT (s.directory 1).startBlock (TOTAL_BLOCKS + 1) = [0] ∧
      deleteFile [122] s = Except.error (Fault.fatIndexOutOfRange (-2)) ∧
      readFile [122] s = Except.error (Fault.fatIndexOutOfRange (-2)) ∧
      truncateFile [122] 0 s = Except.error (Fault.fatIndexOutOfRange (-2)) :=
  ⟨rfl, _, ⟨[Op.createFile [97] 1, Op.createFile [122] 0], rfl⟩,
    rfl, by decide, by decide, by decide, by decide, by decide, rfl, rfl, rfl⟩

theorem forwardLinks_free {fat : Nat → Int} (h : ForwardLinks fat) (k : Nat) :
    ForwardLinks (Function.update fat k (-1)) := by
  intro i hi
  by_cases hik : i = k
  · subst hik; simp
  · rw [Function.update_noteq hik]
    exact h i hi

theorem releaseLoop_forwardLinks (fuel : Nat) :
    ∀ (fat : Nat → Int) (block : Int) (fat1 : Nat → Int), ForwardLinks fat →
      releaseLoop fat block fuel = Except.ok fat1 → ForwardLinks fat1 := by
  induction fuel with
  | zero => intro fat block fat1 _ h; simp [releaseLoop] at h
  | succ f ih =>
    intro fat block fat1 hfw h
    rw [releaseLoop] at h
    split at h
    · simp only [Except.ok.injEq] at h
      rw [← h]; exact hfw
    · split at h
      · exact ih _ _ _ (forwardLinks_free hfw _) h
      · cases h

theorem truncateLoop_forwardLinks (newSize : Int) (fuel : Nat) :
    ∀ (fat : Nat → Int) (block prevBlock blockCount : Int) (r : (Nat → Int) × Int),
      ForwardLinks fat →
      truncateLoop newSize fat block prevBlock blockCount fuel = Except.ok r →
      ForwardLinks r.1 := by
  induction fuel with
  | zero => intro fat block prevBlock blockCount r _ h; simp [truncateLoop] at h
  | succ f ih =>
    intro fat block prevBlock blockCount r hfw h
    rw [truncateLoop] at h
    split at h
    · simp only [Except.ok.injEq] at h
      rw [← h]; exact hfw
    · split at h
      · split at h
        · exact ih _ _ _ _ _ (forwardLinks_free hfw _) h
        · exact ih _ _ _ _ _ hfw h
      · cases h

theorem allocStep_forwardLinks {a : Alloc} (hfw : ForwardLinks a.FAT) (hp : PrevLow a) :
    ForwardLinks (allocStep a).FAT ∧ PrevLow (allocStep a) := by
  cases h : freeBlocks a.FAT with
  | nil => rw [allocStep_nil h]; exact ⟨hfw, hp⟩
  | cons k rest =>
    have hpo : PrevOk a := by
      rcases hp with hp | hp
      · exact Or.inl hp
      · exact Or.inr ⟨hp.1, hp.2.1⟩
    obtain ⟨s1, -, s3, s4, s5, s6⟩ := allocStep_cons h hpo
    have hkmem : k ∈ freeBlocks a.FAT := by rw [h]; simp
    have hkN : k < TOTAL_BLOCKS := (mem_freeBlocks.mp hkmem).1
    have hsorted : ∀ x ∈ rest, k < x := by
      have := freeBlocks_pairwise a.FAT
      rw [h] at this
      exact (List.pairwise_cons.mp this).1
    constructor
    · intro i hi
      by_cases hik : i = k
      · subst hik; exact Or.inr (Or.inl s4)
      · by_cases hip : (i : Int) = a.prevBlock
        · have hne : a.prevBlock ≠ -1 := by omega
          have hlow : a.prevBlock < (k : Int) := by
            rcases hp with hp | hp
            · exact absurd hp hne
            · exact hp.2.2 k hkmem
          have hit : a.prevBlock.toNat = i := by omega
          have := s5 hne
          rw [hit] at this
          rw [this]
          right; right
          omega
        · rw [s6 i hik hip]
          exact hfw i hi
    · right
      rw [s1, s3]
      refine ⟨by omega, ?_, ?_⟩
      · simp only [Int.toNat_ofNat]
        rw [s4]; decide
      · intro x hx
        have := hsorted x hx
        omega

theorem allocLoop_forwardLinks (n : Nat) :
    ∀ a : Alloc, ForwardLinks a.FAT → PrevLow a → ForwardLinks (allocLoop n a).FAT := by
  induction n with
  | zero => intro a h _; exact h
  | succ n ih =>
    intro a h hp
    obtain ⟨h1, h2⟩ := allocStep_forwardLinks h hp
    exact ih _ h1 h2

theorem createFile_forwardLinks (name : List Nat) (size : Int) (s : Volume)
    (h : ForwardLinks s.FAT) : ForwardLinks (createFile name size s).2.FAT := by
  unfold createFile
  split
  · exact h
  · cases firstEmptySlot s.directory 0 DIRECTORY_SIZE with
    | none => exact h
    | some i => exact allocLoop_forwardLinks _ _ h (Or.inl rfl)
theorem deleteFile_forwardLinks {name : List Nat} {s : Volume} {r : Msg × Volume}
    (hfw : ForwardLinks s.FAT) (h : deleteFile name s = Except.ok r) : ForwardLinks r.2.FAT := by
  unfold deleteFile at h
  split at h
  · cases h
  · simp only [Except.ok.injEq] at h
    rw [← h]; exact hfw
  · split at h
    · cases h
    · rename_i fat hrel
      simp only [Except.ok.injEq] at h
      rw [← h]
      exact releaseLoop_forwardLinks _ _ _ _ hfw hrel

theorem truncateFile_forwardLinks {name : List Nat} {newSize : Int} {s : Volume}
    {r : Msg × Volume} (hfw : ForwardLinks s.FAT)
    (h : truncateFile name newSize s = Except.ok r) : ForwardLinks r.2.FAT := by
  unfold truncateFile at h
  split at h
  · cases h
  · simp only [Except.ok.injEq] at h
    rw [← h]; exact hfw
  · split at h
    · simp only [Except.ok.injEq] at h
      rw [← h]; exact hfw
    · split at h
      · cases h
      · rename_i fat prevBlock htr
        simp only [Except.ok.injEq] at h
        rw [← h]
        have hf1 : ForwardLinks fat := truncateLoop_forwardLinks _ _ _ _ _ _ _ hfw htr
        show ForwardLinks (if prevBlock ≠ -1 then Function.update fat prevBlock.toNat (-1) else fat)
        split
        · exact forwardLinks_free hf1 _
        · exact hf1

theorem deleteDirectory_FAT {name : List Nat} {s : Volume} {r : Msg × Volume}
    (h : deleteDirectory name s = Except.ok r) : r.2.FAT = s.FAT := by
  unfold deleteDirectory at h
  split at h
  · cases h
  · simp only [Except.ok.injEq] at h
    rw [← h]
  · split at h
    · cases h
    · simp only [Except.ok.injEq] at h
      rw [← h]
    · simp only [Except.ok.injEq] at h
      rw [← h]

theorem createDirectory_FAT (name : List Nat) (s : Volume) :
    (createDirectory name s).2.FAT = s.FAT := by
  unfold createDirectory
  cases firstEmptySlot s.directory 0 DIRECTORY_SIZE <;> rfl

theorem writeFile_FAT {name data : List Nat} {dataSize : Int} {s : Volume} {r : Msg × Volume}
    (h : writeFile name data dataSize s = Except.ok r) : r.2.FAT = s.FAT := by
  unfold writeFile at h
  split at h
  · cases h
  · simp only [Except.ok.injEq] at h
    rw [← h]
  · split at h
    · simp only [Except.ok.injEq] at h
      rw [← h]
    · split at h
      · cases h
      · simp only [Except.ok.injEq] at h
        rw [← h]

theorem map_snd_ok {r : Except Fault (Msg × Volume)} {s1 : Volume}
    (h : r.map Prod.snd = Except.ok s1) : ∃ m, r = Except.ok (m, s1) := by
  cases r with
  | error f => cases h
  | ok p =>
    obtain ⟨m, v⟩ := p
    simp only [Except.map, Except.ok.injEq] at h
    exact ⟨m, by rw [h]⟩

theorem apply_forwardLinks {op : Op} {s s1 : Volume} (hfw : ForwardLinks s.FAT)
    (h : op.apply s = Except.ok s1) : ForwardLinks s1.FAT := by
  cases op with
  | createFile name size =>
    simp only [Op.apply, Except.ok.injEq] at h
    rw [← h]; exact createFile_forwardLinks name size s hfw
  | deleteFile name =>
    obtain ⟨m, hm⟩ := map_snd_ok h
    exact deleteFile_forwardLinks hfw hm
  | writeFile name data dataSize =>
    obtain ⟨m, hm⟩ := map_snd_ok h
    have := writeFile_FAT hm
    simp only at this
    rw [this]; exact hfw
  | truncateFile name newSize =>
    obtain ⟨m, hm⟩ := map_snd_ok h
    exact truncateFile_forwardLinks hfw hm
  | createDirectory name =>
    simp only [Op.apply, Except.ok.injEq] at h
    rw [← h, createDirectory_FAT]; exact hfw
  | deleteDirectory name =>
    obtain ⟨m, hm⟩ := map_snd_ok h
    have := deleteDirectory_FAT hm
    simp only at this
    rw [this]; exact hfw

theorem run_forwardLinks (ops : List Op) :
    ∀ s s1 : Volume, ForwardLinks s.FAT → run ops s = Except.ok s1 → ForwardLinks s1.FAT := by
  induction ops with
  | nil =>
    intro s s1 hfw h
    simp only [run, Except.ok.injEq] at h
    rw [← h]; exact hfw
  | cons op ops ih =>
    intro s s1 hfw h
    rw [run] at h
    split at h
    · cases h
    · rename_i s2 hop
      exact ih s2 s1 (apply_forwardLinks hfw hop) h

theorem forwardLinks_format : ForwardLinks createAndFormatPartition.FAT := by
  intro i _
  left
  rfl
theorem chain_out_of_range (fat : Nat → Int) (b : Int) (fuel : Nat)
    (h : ¬ (0 ≤ b ∧ b < (TOTAL_BLOCKS : Int))) : chain fat b fuel = [] := by
  cases fuel with
  | zero => rfl
  | succ f => rw [chain, if_neg h]

theorem chain_ascending {fat : Nat → Int} (hfw : ForwardLinks fat) (fuel : Nat) :
    ∀ b : Int, (chain fat b fuel).Pairwise (· < ·) ∧ ∀ x ∈ chain fat b fuel, b ≤ (x : Int) := by
  induction fuel with
  | zero => intro b; simp [chain]
  | succ f ih =>
    intro b
    rw [chain]
    by_cases hr : 0 ≤ b ∧ b < (TOTAL_BLOCKS : Int)
    · rw [if_pos hr]
      obtain ⟨ih1, ih2⟩ := ih (fat b.toNat)
      have hnext : ∀ x ∈ chain fat (fat b.toNat) f, b < (x : Int) := by
        intro x hx
        have hx1 := ih2 x hx
        have hx2 := chain_lt fat _ f x hx
        rcases hfw b.toNat (by omega) with h | h | h
        · rw [h, chain_out_of_range _ _ _ (by omega)] at hx; cases hx
        · rw [h, chain_out_of_range _ _ _ (by omega)] at hx; cases hx
        · omega
      constructor
      · rw [List.pairwise_cons]
        exact ⟨fun x hx => by have := hnext x hx; omega, ih1⟩
      · intro x hx
        rcases List.mem_cons.mp hx with h | h
        · omega
        · have := hnext x h; omega
    · rw [if_neg hr]
      simp

theorem chain_stable {fat : Nat → Int} (hfw : ForwardLinks fat) (m : Nat) :
    ∀ (b : Int) (fuel : Nat), (0 ≤ b → (TOTAL_BLOCKS : Int) - b ≤ (m : Int)) → m ≤ fuel →
      chain fat b fuel = chain fat b m := by
  induction m with
  | zero =>
    intro b fuel hb _
    have hr : ¬ (0 ≤ b ∧ b < (TOTAL_BLOCKS : Int)) := by
      intro h
      have := hb h.1
      omega
    rw [chain_out_of_range fat b fuel hr, chain_out_of_range fat b 0 hr]
  | succ m ih =>
    intro b fuel hb hfuel
    obtain ⟨f, rfl⟩ : ∃ f, fuel = f + 1 := ⟨fuel - 1, by omega⟩
    by_cases hr : 0 ≤ b ∧ b < (TOTAL_BLOCKS : Int)
    · rw [chain, chain, if_pos hr, if_pos hr]
      congr 1
      apply ih _ f _ (by omega)
      intro hnn
      have := hb hr.1
      rcases hfw b.toNat (by omega) with h | h | h
      · rw [h] at hnn; omega
      · rw [h] at hnn; omega
      · omega
    · rw [chain_out_of_range fat b _ hr, chain_out_of_range fat b _ hr]

/-- C19: in every state reachable from a freshly formatted volume by the console
commands, every FAT entry is FREE (`-1`), the end marker (`-2`), or the index of
a later block. Hence the blocks visited by following the links from any start
are strictly ascending (no chain contains a cycle), and a walk over in-range
links is over within `TOTAL_BLOCKS` steps: it visits at most `TOTAL_BLOCKS`
blocks and more fuel than `TOTAL_BLOCKS` visits nothing more. -/
theorem fat_links_point_forward (s : Volume) (h : Reachable s) :
    (∀ i, i < TOTAL_BLOCKS →
      s.FAT i = -1 ∨ s.FAT i = -2 ∨ ((i : Int) < s.FAT i ∧ s.FAT i < (TOTAL_BLOCKS : Int))) ∧
    (∀ (b : Int) (fuel : Nat), (chain s.FAT b fuel).Pairwise (· < ·)) ∧
    (∀ (b : Int) (fuel : Nat), (chain s.FAT b fuel).length ≤ TOTAL_BLOCKS) ∧
    (∀ (b : Int) (fuel : Nat), TOTAL_BLOCKS ≤ fuel →
      chain s.FAT b fuel = chain s.FAT b TOTAL_BLOCKS) := by
  obtain ⟨ops, hops⟩ := h
  have hfw : ForwardLinks s.FAT := run_forwardLinks ops _ _ forwardLinks_format hops
  refine ⟨hfw, fun b fuel => (chain_ascending hfw fuel b).1, ?_, ?_⟩
  · intro b fuel
    apply length_le_of_nodup_lt
    · exact ((chain_ascending hfw fuel b).1).imp (fun h => Nat.ne_of_lt h)
    · exact chain_lt _ _ _
  · intro b fuel hfuel
    exact chain_stable hfw TOTAL_BLOCKS b fuel (fun hb => by omega) hfuel

/-- Witness for C19: the state after `createFile("a", 3)` on a freshly formatted
volume. -/
theorem fat_links_point_forward_witness :
    (∀ i, i < TOTAL_BLOCKS →
      (createFile [97] 3 createAndFormatPartition).2.FAT i = -1 ∨
      (createFile [97] 3 createAndFormatPartition).2.FAT i = -2 ∨
      ((i : Int) < (createFile [97] 3 createAndFormatPartition).2.FAT i ∧
        (createFile [97] 3 createAndFormatPartition).2.FAT i < (TOTAL_BLOCKS : Int))) ∧
    (∀ (b : Int) (fuel : Nat),
      (chain (createFile [97] 3 createAndFormatPartition).2.FAT b fuel).Pairwise (· < ·)) ∧
    (∀ (b : Int) (fuel : Nat),
      (chain (createFile [97] 3 createAndFormatPartition).2.FAT b fuel).length ≤ TOTAL_BLOCKS) ∧
    (∀ (b : Int) (fuel : Nat), TOTAL_BLOCKS ≤ fuel →
      chain (createFile [97] 3 createAndFormatPartition).2.FAT b fuel
        = chain (createFile [97] 3 createAndFormatPartition).2.FAT b TOTAL_BLOCKS) :=
  fat_links_point_forward (createFile [97] 3 createAndFormatPartition).2
    ⟨[Op.createFile [97] 3], rfl⟩

end FatFS
